import Mathlib

/-!
Verification of the NMEA client core (GPS-Compass repository).

The development shallowly embeds the shared core of
`src/Python_client/nmea_display.py` and `src/Python_client/serial_tester.py`:
line framing, checksum verification, field extraction, the numeric field
decoders, the circular heading filter and the per-sentence state aggregation.
Python strings are modelled as lists of characters, bytes as natural numbers,
and floating-point values as real numbers (the idealisation used throughout:
float arithmetic is modelled exactly).
-/

set_option maxHeartbeats 1000000

/-- Python strings, modelled as lists of characters. -/
abbrev PyStr := List Char

/-- Whitespace recognised by Python `str.strip` (ASCII fragment). -/
def pyIsSpace (c : Char) : Bool :=
  c == ' ' || c == '\t' || c == '\n' || c == '\r' || c == '\x0b' || c == '\x0c'

/-- Python `str.strip()`: remove whitespace from both ends. -/
def pyStrip (s : PyStr) : PyStr :=
  ((s.dropWhile pyIsSpace).reverse.dropWhile pyIsSpace).reverse

/-- Python `str.split(sep, 1)`: the part before the first separator and the
part after it, or `none` when the separator is absent (in the source an absent
separator makes the tuple unpacking raise, which the surrounding
`try`/`except` turns into a `False` result). -/
def splitOnce (p : Char → Bool) : PyStr → Option (PyStr × PyStr)
  | [] => none
  | c :: rest =>
    if p c then some ([], rest)
    else (splitOnce p rest).map (fun q => (c :: q.1, q.2))

/-- The checksum accumulator loop: XOR of the character codes. -/
def xorOf (data : PyStr) : Nat :=
  data.foldl (fun a c => Nat.xor a c.toNat) 0

/-- Python `str.upper()` restricted to ASCII letters (sufficient for the
hexadecimal comparison in which it is used). -/
def pyToUpper (c : Char) : Char :=
  if 'a' ≤ c ∧ c ≤ 'z' then Char.ofNat (c.toNat - 32) else c

/-- Python `f"{n:02X}"`: uppercase hexadecimal, zero-padded to width two. -/
def toHexMin2 (n : Nat) : PyStr :=
  let ds := (Nat.toDigits 16 n).map pyToUpper
  if ds.length < 2 then '0' :: ds else ds

/-- The comparison `cs[:2].upper() == f"{chk:02X}"` shared by both checksum
verifiers. -/
def csMatch (cs : PyStr) (chk : Nat) : Bool :=
  (cs.take 2).map pyToUpper == toHexMin2 chk

/-- `nmea_checksum_ok` from `nmea_display.py`: requires a `*` and a leading
`$`, then compares the two characters after the first `*` (uppercased) with
the XOR of the characters between `$` and `*`. -/
def nmea_checksum_ok_display (sentence : PyStr) : Bool :=
  if !(sentence.contains '*') || !(sentence.head? == some '$') then false
  else
    match splitOnce (· == '*') ((pyStrip sentence).drop 1) with
    | none => false
    | some (data, cs) => csMatch cs (xorOf data)

/-- `nmea_checksum_ok` from `serial_tester.py`: identical except that the
leading `$` is not required; the first character of the stripped line is
dropped unconditionally. -/
def nmea_checksum_ok_tester (sentence : PyStr) : Bool :=
  if !(sentence.contains '*') then false
  else
    match splitOnce (· == '*') ((pyStrip sentence).drop 1) with
    | none => false
    | some (data, cs) => csMatch cs (xorOf data)

/-- Split a list at every element satisfying `p`; like Python `str.split(sep)`
this always yields at least one (possibly empty) segment. -/
def splitOnPred {α : Type} (p : α → Bool) : List α → List (List α)
  | [] => [[]]
  | a :: rest =>
    let ps := splitOnPred p rest
    if p a then [] :: ps
    else
      match ps with
      | [] => [[a]]
      | q :: qs => (a :: q) :: qs

/-- Python `body.split(",")`. -/
def pySplit (s : PyStr) : List PyStr := splitOnPred (· == ',') s

/-- `split_fields` (identical in both source files): strip, require a leading
`$`, cut the body at the first `*` (or take everything when `*` is absent),
split on commas, reject a first token shorter than five characters, and
return talker (first two characters), type (the rest) and the field list. -/
def split_fields (sentence : PyStr) : Option PyStr × Option PyStr × List PyStr :=
  let s := pyStrip sentence
  if s.head? ≠ some '$' then (none, none, [])
  else
    let body :=
      match s.findIdx? (· == '*') with
      | some star => (s.take star).drop 1
      | none => s.drop 1
    let parts := pySplit body
    match parts with
    | [] => (none, none, [])
    | p0 :: restParts =>
      if p0.length < 5 then (none, none, [])
      else (some (p0.take 2), some (p0.drop 2), restParts)

/-- Decimal digit value of a character, if any. -/
def digitVal (c : Char) : Option Nat :=
  if '0' ≤ c ∧ c ≤ '9' then some (c.toNat - 48) else none

/-- Accumulating loop for a digit run that may contain single underscores
between digits; `v` is the value read so far, `k` the number of digits read. -/
def parseNatGo : PyStr → Nat → Nat → Option (Nat × Nat)
  | [], v, k => some (v, k)
  | '_' :: rest, v, k =>
    match rest with
    | [] => none
    | c :: rest2 =>
      match digitVal c with
      | some d => parseNatGo rest2 (v * 10 + d) (k + 1)
      | none => none
  | c :: rest, v, k =>
    match digitVal c with
    | some d => parseNatGo rest (v * 10 + d) (k + 1)
    | none => none

/-- A nonempty decimal digit run in Python literal syntax: digits with single
underscores allowed strictly between digits.  Returns the value and the
number of digits. -/
def parseNatUS : PyStr → Option (Nat × Nat)
  | [] => none
  | '_' :: _ => none
  | c :: rest =>
    match digitVal c with
    | some d => parseNatGo rest d 1
    | none => none

/-- `safe_int`: Python `int(s)` returning `none` instead of raising.  Accepts
surrounding whitespace, an optional sign and a decimal digit run. -/
def safe_int (s : PyStr) : Option Int :=
  let t := pyStrip s
  match t with
  | '+' :: r => (parseNatUS r).map (fun q => (q.1 : Int))
  | '-' :: r => (parseNatUS r).map (fun q => -(q.1 : Int))
  | _ => (parseNatUS t).map (fun q => (q.1 : Int))

/-- Mantissa parts of a Python float literal: the digits of the integer and
fractional parts combined into one numerator, together with the number of
fractional digits.  At least one digit must be present. -/
def parseMantissaParts (m : PyStr) : Option (Nat × Nat) :=
  match splitOnce (· == '.') m with
  | none => (parseNatUS m).map (fun q => (q.1, 0))
  | some (ip, fp) =>
    if fp.contains '.' then none
    else
      match ip, fp with
      | [], [] => none
      | [], _ => (parseNatUS fp).map (fun q => (q.1, q.2))
      | _, [] => (parseNatUS ip).map (fun q => (q.1, 0))
      | _, _ =>
        match parseNatUS ip, parseNatUS fp with
        | some a, some b => some (a.1 * 10 ^ b.2 + b.1, b.2)
        | _, _ => none

/-- Signed exponent of a Python float literal. -/
def parseExp (e : PyStr) : Option Int :=
  match e with
  | '+' :: r => (parseNatUS r).map (fun q => (q.1 : Int))
  | '-' :: r => (parseNatUS r).map (fun q => -(q.1 : Int))
  | _ => (parseNatUS e).map (fun q => (q.1 : Int))

/-- Python `float(s)` split into integer data: signed numerator, number of
fractional digits, exponent.  The represented value is
`numerator / 10 ^ fracDigits * 10 ^ exponent`.  Accepts whitespace, an
optional sign, a mantissa and an optional exponent introduced by `e` or `E`;
the special values inf and nan are outside the real-number model. -/
def parseFloatParts (s : PyStr) : Option (Int × Nat × Int) :=
  let t := pyStrip s
  let sg : Int × PyStr :=
    match t with
    | '+' :: r => (1, r)
    | '-' :: r => (-1, r)
    | _ => (1, t)
  match splitOnce (fun c => c == 'e' || c == 'E') sg.2 with
  | none => (parseMantissaParts sg.2).map (fun q => (sg.1 * q.1, q.2, 0))
  | some (m, ex) =>
    match parseMantissaParts m, parseExp ex with
    | some q, some p => some (sg.1 * q.1, q.2, p)
    | _, _ => none

/-- Python `float(s)` on finite decimal literals, as an exact rational. -/
def safe_floatQ (s : PyStr) : Option ℚ :=
  (parseFloatParts s).map (fun t => (t.1 : ℚ) / 10 ^ t.2.1 * 10 ^ t.2.2)

/-- `safe_float`, valued in the real-number model of Python floats. -/
def safe_float (s : PyStr) : Option ℝ :=
  (safe_floatQ s).map (fun q => (q : ℝ))

/-- Python float modulo `a % b` for the positive divisors used here:
`a - b * floor (a / b)`. -/
noncomputable def pymod (a b : ℝ) : ℝ := a - b * ⌊a / b⌋

/-- `norm360` from `nmea_display.py`: `(deg % 360.0 + 360.0) % 360.0`. -/
noncomputable def norm360 (deg : ℝ) : ℝ := pymod (pymod deg 360 + 360) 360

/-- Python `math.radians`. -/
noncomputable def radiansOf (deg : ℝ) : ℝ := deg * Real.pi / 180

/-- Python `math.degrees`. -/
noncomputable def degreesOf (rad : ℝ) : ℝ := rad * 180 / Real.pi

/-- Python `math.atan2 y x`, modelled as the argument of the complex number
`x + y i` (range `(-pi, pi]`). -/
noncomputable def atan2 (y x : ℝ) : ℝ := Complex.arg (x + y * Complex.I)

/-- State of the `HeadingFIR` circular moving-average filter: configured
window size, retained angle samples in radians (oldest first), and running
sums of their sines and cosines. -/
structure FIR where
  window : Nat
  angles : List ℝ
  sum_sin : ℝ
  sum_cos : ℝ

/-- `HeadingFIR.__init__`: window clamped to at least one, no samples. -/
def FIR.init (w : Int) : FIR := ⟨(max 1 w).toNat, [], 0, 0⟩

/-- The `while len(self.angles) > self.window` eviction loop of
`HeadingFIR.set_window`: drop oldest samples, correcting the sums. -/
noncomputable def evictTo (w : Nat) : List ℝ → ℝ → ℝ → List ℝ × ℝ × ℝ
  | [], ss, sc => ([], ss, sc)
  | old :: rest, ss, sc =>
    if w < (old :: rest).length then
      evictTo w rest (ss - Real.sin old) (sc - Real.cos old)
    else (old :: rest, ss, sc)

/-- `HeadingFIR.set_window`: clamp to at least one, then evict oldest
samples until the invariant holds. -/
noncomputable def FIR.set_window (f : FIR) (n : Int) : FIR :=
  let w := (max 1 n).toNat
  let r := evictTo w f.angles f.sum_sin f.sum_cos
  ⟨w, r.1, r.2.1, r.2.2⟩

/-- `HeadingFIR.reset`. -/
def FIR.reset (f : FIR) : FIR := ⟨f.window, [], 0, 0⟩

/-- `HeadingFIR.add`: normalise the degree sample, convert to radians,
append, update the sums, and evict one oldest sample (`angles.pop(0)`,
modelled by head and tail of the non-empty sample list) when the window
overflows. -/
noncomputable def FIR.add (f : FIR) (deg : ℝ) : FIR :=
  let rad := radiansOf (norm360 deg)
  let angles := f.angles ++ [rad]
  let ss := f.sum_sin + Real.sin rad
  let sc := f.sum_cos + Real.cos rad
  if f.window < angles.length then
    ⟨f.window, angles.tail, ss - Real.sin (angles.headD 0), sc - Real.cos (angles.headD 0)⟩
  else ⟨f.window, angles, ss, sc⟩

/-- `HeadingFIR.value`: none when no samples are retained, otherwise the
circular mean `atan2(sum_sin, sum_cos)` in degrees normalised to [0, 360). -/
noncomputable def FIR.value (f : FIR) : Option ℝ :=
  if f.angles.isEmpty then none
  else some (norm360 (degreesOf (atan2 f.sum_sin f.sum_cos)))

/-- The navigation state shared by both programs (`NMEAState` in
`nmea_display.py`, the `state` dictionary in `serial_tester.py`; the unused
wall-clock field `last_update` of the latter is outside the model). -/
structure NMEAState where
  utc : Option PyStr
  date : Option PyStr
  fix : Int
  sats_used : Option Int
  sats_in_view : Option Int
  pdop : Option ℝ
  hdop : Option ℝ
  vdop : Option ℝ
  alt_m : Option ℝ
  heading_T : Option ℝ
  last_talker : Option PyStr
  ok_count : Nat
  bad_count : Nat

/-- The initial navigation state of both programs. -/
def initState : NMEAState :=
  ⟨none, none, 0, none, none, none, none, none, none, none, none, 0, 0⟩

/-- Increment exactly one checksum counter according to the checksum flag. -/
def bumpCounts (st : NMEAState) (ok : Bool) : NMEAState :=
  if ok then { st with ok_count := st.ok_count + 1 }
  else { st with bad_count := st.bad_count + 1 }

/-- Python `safe_int(x) or 0`: the decoded value unless it is absent (and
`None` is falsy) — a decoded 0 is falsy too but `or` then yields 0 again. -/
def pyIntOr0 (x : Option Int) : Int :=
  match x with
  | some v => if v = 0 then 0 else v
  | none => 0

/-- Python `f"{hh}:{mm}:{ss}"` with `hh, mm, ss = t[0:2], t[2:4], t[4:6]`. -/
def fmtTime (t : PyStr) : PyStr :=
  t.take 2 ++ ':' :: ((t.drop 2).take 2 ++ ':' :: (t.drop 4).take 2)

/-- Zero-pad a digit string on the left to the given width. -/
def padZeroTo (w : Nat) (ds : PyStr) : PyStr :=
  List.replicate (w - ds.length) '0' ++ ds

/-- Python `f"{n:0wd}"`: decimal, zero-padded to width `w` (sign included in
the width). -/
def formatIntPad (w : Nat) (n : Int) : PyStr :=
  if n < 0 then '-' :: padZeroTo (w - 1) (Nat.toDigits 10 n.natAbs)
  else padZeroTo w (Nat.toDigits 10 n.toNat)

/-- Python `f"{year:04d}-{mon:02d}-{day:02d}"`. -/
def fmtDate (year mon day : Int) : PyStr :=
  formatIntPad 4 year ++ '-' :: (formatIntPad 2 mon ++ '-' :: formatIntPad 2 day)

/-- The field-0 time update shared by the GGA and ZDA branches:
`if f[0] and len(f[0]) >= 6`. -/
def timeUpd (st : NMEAState) (f : List PyStr) : NMEAState :=
  if ¬(f.getD 0 []).isEmpty ∧ 6 ≤ (f.getD 0 []).length then
    { st with utc := some (fmtTime (f.getD 0 [])) }
  else st

/-- The GGA branch of `nmea_display.py` (fields: fix from 5, satellites from
6, HDOP from 7, altitude from 8, time from 0). -/
noncomputable def updGGA_display (st : NMEAState) (f : List PyStr) : NMEAState :=
  let a := { st with fix := pyIntOr0 (safe_int (f.getD 5 [])) }
  let b :=
    match safe_int (f.getD 6 []) with
    | some n => { a with sats_used := some n }
    | none => a
  let c :=
    if (f.getD 7 []).isEmpty then b
    else
      match safe_float (f.getD 7 []) with
      | some v => { b with hdop := some v }
      | none => b
  let d :=
    if (f.getD 8 []).isEmpty then c
    else
      match safe_float (f.getD 8 []) with
      | some v => { c with alt_m := some v }
      | none => c
  timeUpd d f

/-- The GGA branch of `serial_tester.py`: identical except that HDOP and
altitude are assigned `safe_float(...)` directly when the field is non-empty,
so an undecodable non-empty field stores `None`. -/
noncomputable def updGGA_tester (st : NMEAState) (f : List PyStr) : NMEAState :=
  let a := { st with fix := pyIntOr0 (safe_int (f.getD 5 [])) }
  let b :=
    match safe_int (f.getD 6 []) with
    | some n => { a with sats_used := some n }
    | none => a
  let c :=
    { b with hdop := if (f.getD 7 []).isEmpty then b.hdop else safe_float (f.getD 7 []) }
  let d :=
    { c with alt_m := if (f.getD 8 []).isEmpty then c.alt_m else safe_float (f.getD 8 []) }
  timeUpd d f

/-- The GSA branch (identical in both files; the tester's `fix_mode` inference
block is a dead `pass` and has no effect): count non-blank satellite slots
among fields 2..13, then decode PDOP/HDOP/VDOP from fields 14/15/16. -/
noncomputable def updGSA (st : NMEAState) (f : List PyStr) : NMEAState :=
  let used := ((f.drop 2).take 12).countP (fun x => !(pyStrip x).isEmpty)
  let a := if 0 < used then { st with sats_used := some (used : Int) } else st
  let b :=
    match safe_float (f.getD 14 []) with
    | some v => { a with pdop := some v }
    | none => a
  let c :=
    match safe_float (f.getD 15 []) with
    | some v => { b with hdop := some v }
    | none => b
  match safe_float (f.getD 16 []) with
  | some v => { c with vdop := some v }
  | none => c

/-- The GSV branch (identical in both files): satellites in view from
field 2. -/
def updGSV (st : NMEAState) (f : List PyStr) : NMEAState :=
  match safe_int (f.getD 2 []) with
  | some v => { st with sats_in_view := some v }
  | none => st

/-- The ZDA branch of `nmea_display.py`: time from field 0, then date from
fields 3/2/1 when all three decode to truthy (nonzero) integers. -/
def updZDA_display (st : NMEAState) (f : List PyStr) : NMEAState :=
  let a := timeUpd st f
  match safe_int (f.getD 3 []), safe_int (f.getD 2 []), safe_int (f.getD 1 []) with
  | some year, some mon, some day =>
    if year ≠ 0 ∧ mon ≠ 0 ∧ day ≠ 0 then
      { a with date := some (fmtDate year mon day) }
    else a
  | _, _, _ => a

/-- The ZDA branch of `serial_tester.py`: additionally guarded by the fields
3/2/1 being non-empty strings before decoding. -/
def updZDA_tester (st : NMEAState) (f : List PyStr) : NMEAState :=
  let a := timeUpd st f
  if ¬(f.getD 3 []).isEmpty ∧ ¬(f.getD 2 []).isEmpty ∧ ¬(f.getD 1 []).isEmpty then
    match safe_int (f.getD 3 []), safe_int (f.getD 2 []), safe_int (f.getD 1 []) with
    | some year, some mon, some day =>
      if year ≠ 0 ∧ mon ≠ 0 ∧ day ≠ 0 then
        { a with date := some (fmtDate year mon day) }
      else a
    | _, _, _ => a
  else a

/-- The HDT branch of `serial_tester.py`: store the decoded heading as-is
(no normalisation, no filter). -/
noncomputable def updHDT_tester (st : NMEAState) (f : List PyStr) : NMEAState :=
  match safe_float (f.getD 0 []) with
  | some hdg => { st with heading_T := some hdg }
  | none => st

/-- Sentence type tokens. -/
def TGGA : PyStr := ['G', 'G', 'A']

/-- GSA token. -/
def TGSA : PyStr := ['G', 'S', 'A']

/-- GSV token. -/
def TGSV : PyStr := ['G', 'S', 'V']

/-- ZDA token. -/
def TZDA : PyStr := ['Z', 'D', 'A']

/-- HDT token. -/
def THDT : PyStr := ['H', 'D', 'T']

/-- `handle_sentence` of `serial_tester.py`.  Lines not starting with `$`
return immediately (before any counter update); the talker is recorded
unconditionally, even when absent. -/
noncomputable def handle_sentence_tester (st : NMEAState) (sentence : PyStr) : NMEAState :=
  if sentence.head? ≠ some '$' then st
  else
    let st1 := bumpCounts st (nmea_checksum_ok_tester sentence)
    let r := split_fields sentence
    let talker := r.1
    let typ := r.2.1
    let f := r.2.2
    let st2 := { st1 with last_talker := talker }
    if typ = some TGGA ∧ 14 ≤ f.length then updGGA_tester st2 f
    else if typ = some TGSA ∧ 17 ≤ f.length then updGSA st2 f
    else if typ = some TGSV ∧ 4 ≤ f.length then updGSV st2 f
    else if typ = some TZDA ∧ 6 ≤ f.length then updZDA_tester st2 f
    else if typ = some THDT ∧ 2 ≤ f.length then updHDT_tester st2 f
    else st2

/-- State of the `SerialReader` of `nmea_display.py` relevant to sentence
handling: the navigation state, the heading filter, the published filtered
heading and the configured heading offset. -/
structure DisplayReader where
  state : NMEAState
  fir : FIR
  filtered_heading : Option ℝ
  heading_offset_deg : ℝ

/-- The HDT branch of `nmea_display.py`: normalise the decoded heading,
store it, feed the raw normalised value to the filter, and publish the
filter value plus the offset, normalised. -/
noncomputable def updHDT_display (r : DisplayReader) (f : List PyStr) : DisplayReader :=
  match safe_float (f.getD 0 []) with
  | some hdg =>
    let h := norm360 hdg
    let fir2 := r.fir.add h
    { r with
      state := { r.state with heading_T := some h },
      fir := fir2,
      filtered_heading :=
        match fir2.value with
        | none => none
        | some v => some (norm360 (v + r.heading_offset_deg)) }
  | none => r

/-- The `if talker:` recording step of `nmea_display.py`: store the talker
only when it is truthy (present and non-empty). -/
def recordTalker (st : NMEAState) (talker : Option PyStr) : NMEAState :=
  match talker with
  | some t => if t.isEmpty then st else { st with last_talker := some t }
  | none => st

/-- `SerialReader.handle_sentence` of `nmea_display.py`: always count the
checksum flag, record the talker only when present (truthy), then dispatch
on the sentence type. -/
noncomputable def handle_sentence_display (r : DisplayReader) (sentence : PyStr) : DisplayReader :=
  let st1 := bumpCounts r.state (nmea_checksum_ok_display sentence)
  let p := split_fields sentence
  let talker := p.1
  let typ := p.2.1
  let f := p.2.2
  let st2 := recordTalker st1 talker
  if typ = some TGGA ∧ 14 ≤ f.length then { r with state := updGGA_display st2 f }
  else if typ = some TGSA ∧ 17 ≤ f.length then { r with state := updGSA st2 f }
  else if typ = some TGSV ∧ 4 ≤ f.length then { r with state := updGSV st2 f }
  else if typ = some TZDA ∧ 6 ≤ f.length then { r with state := updZDA_display st2 f }
  else if typ = some THDT ∧ 2 ≤ f.length then updHDT_display { r with state := st2 } f
  else { r with state := st2 }

/-- The data-model invariant of the Heading Filter: the running sums equal
the sums of the sines and cosines of exactly the retained samples. -/
def FIR.Wf (f : FIR) : Prop :=
  f.sum_sin = (f.angles.map Real.sin).sum ∧ f.sum_cos = (f.angles.map Real.cos).sum

/-- Sample in radians fed to the filter for an input in degrees. -/
noncomputable def radSample (d : ℝ) : ℝ := radiansOf (norm360 d)

/-- Monotonicity of knowledge between two navigation states: no optional
navigation field goes from set back to unset. -/
def StMono (a b : NMEAState) : Prop :=
  a.utc.isSome ≤ b.utc.isSome ∧
  a.date.isSome ≤ b.date.isSome ∧
  a.sats_used.isSome ≤ b.sats_used.isSome ∧
  a.sats_in_view.isSome ≤ b.sats_in_view.isSome ∧
  a.pdop.isSome ≤ b.pdop.isSome ∧
  a.hdop.isSome ≤ b.hdop.isSome ∧
  a.vdop.isSome ≤ b.vdop.isSome ∧
  a.alt_m.isSome ≤ b.alt_m.isSome ∧
  a.heading_T.isSome ≤ b.heading_T.isSome

/-- Monotonicity of knowledge except for HDOP and altitude (which the tester
variant can clear). -/
def StMonoNoHA (a b : NMEAState) : Prop :=
  a.utc.isSome ≤ b.utc.isSome ∧
  a.date.isSome ≤ b.date.isSome ∧
  a.sats_used.isSome ≤ b.sats_used.isSome ∧
  a.sats_in_view.isSome ≤ b.sats_in_view.isSome ∧
  a.pdop.isSome ≤ b.pdop.isSome ∧
  a.vdop.isSome ≤ b.vdop.isSome ∧
  a.heading_T.isSome ≤ b.heading_T.isSome

/-- Line terminator bytes: carriage return and line feed. -/
def isTermByte (b : Nat) : Bool := b == 13 || b == 10

/-- Index of the earliest terminator byte in the accumulator, as computed by
`min` over the `find` results for CR and LF. -/
def firstTerm : List Nat → Option Nat
  | [] => none
  | b :: rest =>
    if isTermByte b then some 0 else (firstTerm rest).map (· + 1)

/-- A CR/LF or LF/CR pair. -/
def isTermPair (a b : Nat) : Bool :=
  (a == 13 && b == 10) || (a == 10 && b == 13)

/-- Bytes consumed past the line: 2 for a terminator pair with a byte
following in the buffer, otherwise 1. -/
def framerDrop (buf : List Nat) (idx : Nat) : Nat :=
  if idx + 1 < buf.length ∧ isTermPair (buf.getD idx 0) (buf.getD (idx + 1) 0) then 2
  else 1

/-- The inner `while True` framing loop shared by both programs: repeatedly
find the earliest terminator, decode and strip the bytes before it, emit the
line if non-blank, drop the line plus one or two terminator bytes, and stop
when no terminator remains.  Returns the emitted lines and the remaining
accumulator.  The byte-to-text decoding (`decode(errors="replace")`) is a
parameter. -/
def processBuf (decode : List Nat → PyStr) (buf : List Nat) : List PyStr × List Nat :=
  match h : firstTerm buf with
  | none => ([], buf)
  | some idx =>
    let line := pyStrip (decode (buf.take idx))
    let r := processBuf decode (buf.drop (idx + framerDrop buf idx))
    (if line.isEmpty then r.1 else line :: r.1, r.2)
termination_by buf.length
decreasing_by
  have hall : ∀ (l : List Nat) (i : Nat), firstTerm l = some i → i < l.length := by
    intro l
    induction l with
    | nil => intro i hi; simp [firstTerm] at hi
    | cons b rest ih =>
      intro i hi
      by_cases hb : isTermByte b
      · simp [firstTerm, hb] at hi
        simp
        omega
      · simp [firstTerm, hb] at hi
        rcases hi with ⟨j, hj, rfl⟩
        have := ih j hj
        simp
        omega
  have hidx : idx < buf.length := hall buf idx h
  have hdrop : 1 ≤ framerDrop buf idx := by
    unfold framerDrop
    split <;> omega
  simp only [List.length_drop]
  omega

/-- Feeding a sequence of byte chunks through the framer, starting from the
given accumulator; the emitted lines of all chunks are concatenated. -/
def runFramer (decode : List Nat → PyStr) (acc : List Nat) : List (List Nat) → List PyStr
  | [] => []
  | c :: cs =>
    let r := processBuf decode (acc ++ c)
    r.1 ++ runFramer decode r.2 cs

/-- Specification-side segmentation: split the byte stream at every
terminator byte. -/
def segs (buf : List Nat) : List (List Nat) := splitOnPred isTermByte buf

/-- Specification-side last (unterminated) segment of a byte stream. -/
def lastSeg (buf : List Nat) : List Nat := (segs buf).getLastD []

/-- Specification-side emitted lines of a byte stream: every terminated
segment, decoded and stripped, blank lines discarded. -/
def emittedOf (decode : List Nat → PyStr) (buf : List Nat) : List PyStr :=
  ((segs buf).dropLast.map (fun s => pyStrip (decode s))).filter (fun l => !l.isEmpty)

/-- The characters of a line before the first `*` (all of them when `*` is
absent). -/
def beforeStar (l : PyStr) : PyStr := l.takeWhile (fun c => !(c == '*'))

/-- The characters of a line after the first `*` (empty when `*` is absent). -/
def afterStar (l : PyStr) : PyStr := (l.dropWhile (fun c => !(c == '*'))).drop 1

/-- Specification-side checksum condition of the claim: the two characters
following the first `*`, uppercased, spell the XOR of the characters between
the leading `$` and the first `*` as two uppercase hexadecimal digits.
Stated on the stripped line (the comparison is insensitive to surrounding
whitespace, which the implementation strips). -/
def checksumSpecOk (s : PyStr) : Prop :=
  ((afterStar (pyStrip s)).take 2).map pyToUpper =
    toHexMin2 (xorOf (beforeStar ((pyStrip s).drop 1)))

/-- Specification-side body of a sentence for field extraction: the text
between the leading `$` and the first `*`, or to the end when `*` is absent. -/
def specBody (s : PyStr) : PyStr := beforeStar ((pyStrip s).drop 1)

/-- The initial `SerialReader` state of the display program, with the default
filter window and heading offset. -/
noncomputable def initReader : DisplayReader := ⟨initState, FIR.init 15, none, 0⟩

/-- A concrete byte-to-text decoding (each byte as its code point), used to
instantiate the framer theorems at concrete inputs. -/
def byteDecode (bs : List Nat) : PyStr := bs.map Char.ofNat

/-! ### Helper lemmas about the aggregator updates -/

lemma bumpCounts_utc (st : NMEAState) (ok : Bool) : (bumpCounts st ok).utc = st.utc := by
  unfold bumpCounts; split <;> rfl

lemma recordTalker_utc (st : NMEAState) (tk : Option PyStr) :
    (recordTalker st tk).utc = st.utc := by
  unfold recordTalker
  repeat' split
  all_goals rfl

lemma timeUpd_utc (st : NMEAState) (f : List PyStr) :
    (timeUpd st f).utc =
      if ¬(f.getD 0 []).isEmpty ∧ 6 ≤ (f.getD 0 []).length then
        some (fmtTime (f.getD 0 [])) else st.utc := by
  unfold timeUpd; split <;> simp_all

lemma updGGA_display_utc (st : NMEAState) (f : List PyStr) :
    (updGGA_display st f).utc = (timeUpd st f).utc := by
  unfold updGGA_display timeUpd
  repeat' split
  all_goals rfl

lemma updGGA_tester_utc (st : NMEAState) (f : List PyStr) :
    (updGGA_tester st f).utc = (timeUpd st f).utc := by
  unfold updGGA_tester timeUpd
  repeat' split
  all_goals rfl

lemma updZDA_display_utc (st : NMEAState) (f : List PyStr) :
    (updZDA_display st f).utc = (timeUpd st f).utc := by
  unfold updZDA_display timeUpd
  repeat' split
  all_goals rfl

lemma updZDA_tester_utc (st : NMEAState) (f : List PyStr) :
    (updZDA_tester st f).utc = (timeUpd st f).utc := by
  unfold updZDA_tester timeUpd
  repeat' split
  all_goals rfl

lemma updGSA_utc (st : NMEAState) (f : List PyStr) : (updGSA st f).utc = st.utc := by
  simp only [updGSA]
  repeat' split
  all_goals rfl

lemma updGSV_utc (st : NMEAState) (f : List PyStr) : (updGSV st f).utc = st.utc := by
  unfold updGSV
  repeat' split
  all_goals rfl

lemma updHDT_tester_utc (st : NMEAState) (f : List PyStr) :
    (updHDT_tester st f).utc = st.utc := by
  unfold updHDT_tester
  repeat' split
  all_goals rfl

lemma updHDT_display_state_utc (r : DisplayReader) (f : List PyStr) :
    (updHDT_display r f).state.utc = r.state.utc := by
  unfold updHDT_display
  repeat' split
  all_goals rfl

lemma isEmpty_false_of_len6 {l : PyStr} (h : 6 ≤ l.length) : ¬l.isEmpty = true := by
  cases l <;> simp_all


/-- C10: for GGA-class and ZDA-class sentences (in both programs) the UTC
time is updated exactly when field 0 has at least six characters, in which
case its first six characters are rendered as "HH:MM:SS"; a shorter time
field leaves the stored time unchanged.  The last conjunct records that the
rendering uses only the first six characters of the field. -/
theorem claim_C10 :
    (∀ (r : DisplayReader) (line : PyStr) (tk : Option PyStr) (f : List PyStr),
        split_fields line = (tk, some TGGA, f) → 14 ≤ f.length →
        6 ≤ (f.getD 0 []).length →
        (handle_sentence_display r line).state.utc = some (fmtTime (f.getD 0 []))) ∧
    (∀ (r : DisplayReader) (line : PyStr) (tk : Option PyStr) (f : List PyStr),
        split_fields line = (tk, some TZDA, f) → 6 ≤ f.length →
        6 ≤ (f.getD 0 []).length →
        (handle_sentence_display r line).state.utc = some (fmtTime (f.getD 0 []))) ∧
    (∀ (r : DisplayReader) (line : PyStr) (tk : Option PyStr) (ty : PyStr)
        (f : List PyStr),
        split_fields line = (tk, some ty, f) → (ty = TGGA ∨ ty = TZDA) →
        (f.getD 0 []).length < 6 →
        (handle_sentence_display r line).state.utc = r.state.utc) ∧
    (∀ (st : NMEAState) (line : PyStr) (tk : Option PyStr) (f : List PyStr),
        line.head? = some '$' →
        split_fields line = (tk, some TGGA, f) → 14 ≤ f.length →
        6 ≤ (f.getD 0 []).length →
        (handle_sentence_tester st line).utc = some (fmtTime (f.getD 0 []))) ∧
    (∀ (st : NMEAState) (line : PyStr) (tk : Option PyStr) (f : List PyStr),
        line.head? = some '$' →
        split_fields line = (tk, some TZDA, f) → 6 ≤ f.length →
        6 ≤ (f.getD 0 []).length →
        (handle_sentence_tester st line).utc = some (fmtTime (f.getD 0 []))) ∧
    (∀ (st : NMEAState) (line : PyStr) (tk : Option PyStr) (ty : PyStr)
        (f : List PyStr),
        split_fields line = (tk, some ty, f) → (ty = TGGA ∨ ty = TZDA) →
        (f.getD 0 []).length < 6 →
        (handle_sentence_tester st line).utc = st.utc) ∧
    (∀ t : PyStr, fmtTime (t.take 6) = fmtTime t) := by
  refine ⟨?_, ?_, ?_, ?_, ?_, ?_, ?_⟩
  · intro r line tk f hsplit h14 h6
    simp only [handle_sentence_display, hsplit]
    rw [if_pos ⟨trivial, h14⟩]
    try dsimp only
    rw [updGGA_display_utc, timeUpd_utc, if_pos ⟨isEmpty_false_of_len6 h6, h6⟩]
  · intro r line tk f hsplit hlen h6
    simp only [handle_sentence_display, hsplit]
    rw [if_neg (by intro hc; exact absurd hc.1 (by decide)),
      if_neg (by intro hc; exact absurd hc.1 (by decide)),
      if_neg (by intro hc; exact absurd hc.1 (by decide)),
      if_pos ⟨trivial, hlen⟩]
    try dsimp only
    rw [updZDA_display_utc, timeUpd_utc, if_pos ⟨isEmpty_false_of_len6 h6, h6⟩]
  · intro r line tk ty f hsplit hty hshort
    have hne : ¬(¬(f.getD 0 []).isEmpty = true ∧ 6 ≤ (f.getD 0 []).length) := by
      intro hc; omega
    rcases hty with rfl | rfl
    · simp only [handle_sentence_display, hsplit]
      by_cases h14 : 14 ≤ f.length
      · rw [if_pos ⟨trivial, h14⟩]
        try dsimp only
        rw [updGGA_display_utc, timeUpd_utc, if_neg hne, recordTalker_utc, bumpCounts_utc]
      · rw [if_neg (by intro hc; exact h14 hc.2),
          if_neg (by intro hc; exact absurd hc.1 (by decide)),
          if_neg (by intro hc; exact absurd hc.1 (by decide)),
          if_neg (by intro hc; exact absurd hc.1 (by decide)),
          if_neg (by intro hc; exact absurd hc.1 (by decide))]
        try dsimp only
        rw [recordTalker_utc, bumpCounts_utc]
    · simp only [handle_sentence_display, hsplit]
      by_cases hlen : 6 ≤ f.length
      · rw [if_neg (by intro hc; exact absurd hc.1 (by decide)),
          if_neg (by intro hc; exact absurd hc.1 (by decide)),
          if_neg (by intro hc; exact absurd hc.1 (by decide)),
          if_pos ⟨trivial, hlen⟩]
        try dsimp only
        rw [updZDA_display_utc, timeUpd_utc, if_neg hne, recordTalker_utc, bumpCounts_utc]
      · rw [if_neg (by intro hc; exact absurd hc.1 (by decide)),
          if_neg (by intro hc; exact absurd hc.1 (by decide)),
          if_neg (by intro hc; exact absurd hc.1 (by decide)),
          if_neg (by intro hc; exact hlen hc.2),
          if_neg (by intro hc; exact absurd hc.1 (by decide))]
        try dsimp only
        rw [recordTalker_utc, bumpCounts_utc]
  · intro st line tk f hdollar hsplit h14 h6
    simp only [handle_sentence_tester, hsplit]
    rw [if_neg (by intro hc; exact hc hdollar), if_pos ⟨trivial, h14⟩]
    try dsimp only
    rw [updGGA_tester_utc, timeUpd_utc, if_pos ⟨isEmpty_false_of_len6 h6, h6⟩]
  · intro st line tk f hdollar hsplit hlen h6
    simp only [handle_sentence_tester, hsplit]
    rw [if_neg (by intro hc; exact hc hdollar),
      if_neg (by intro hc; exact absurd hc.1 (by decide)),
      if_neg (by intro hc; exact absurd hc.1 (by decide)),
      if_neg (by intro hc; exact absurd hc.1 (by decide)),
      if_pos ⟨trivial, hlen⟩]
    try dsimp only
    rw [updZDA_tester_utc, timeUpd_utc, if_pos ⟨isEmpty_false_of_len6 h6, h6⟩]
  · intro st line tk ty f hsplit hty hshort
    have hne : ¬(¬(f.getD 0 []).isEmpty = true ∧ 6 ≤ (f.getD 0 []).length) := by
      intro hc; omega
    by_cases hdollar : line.head? = some '$'
    · rcases hty with rfl | rfl
      · simp only [handle_sentence_tester, hsplit]
        rw [if_neg (by intro hc; exact hc hdollar)]
        by_cases h14 : 14 ≤ f.length
        · rw [if_pos ⟨trivial, h14⟩]
          try dsimp only
          rw [updGGA_tester_utc, timeUpd_utc, if_neg hne]
          exact bumpCounts_utc st _
        · rw [if_neg (by intro hc; exact h14 hc.2),
            if_neg (by intro hc; exact absurd hc.1 (by decide)),
            if_neg (by intro hc; exact absurd hc.1 (by decide)),
            if_neg (by intro hc; exact absurd hc.1 (by decide)),
            if_neg (by intro hc; exact absurd hc.1 (by decide))]
          exact bumpCounts_utc st _
      · simp only [handle_sentence_tester, hsplit]
        rw [if_neg (by intro hc; exact hc hdollar)]
        by_cases hlen : 6 ≤ f.length
        · rw [if_neg (by intro hc; exact absurd hc.1 (by decide)),
            if_neg (by intro hc; exact absurd hc.1 (by decide)),
            if_neg (by intro hc; exact absurd hc.1 (by decide)),
            if_pos ⟨trivial, hlen⟩]
          try dsimp only
          rw [updZDA_tester_utc, timeUpd_utc, if_neg hne]
          exact bumpCounts_utc st _
        · rw [if_neg (by intro hc; exact absurd hc.1 (by decide)),
            if_neg (by intro hc; exact absurd hc.1 (by decide)),
            if_neg (by intro hc; exact absurd hc.1 (by decide)),
            if_neg (by intro hc; exact hlen hc.2),
            if_neg (by intro hc; exact absurd hc.1 (by decide))]
          exact bumpCounts_utc st _
    · simp only [handle_sentence_tester]
      rw [if_pos hdollar]
  · intro t
    simp [fmtTime, List.take_take, List.drop_take]

/-- Witness for C10: a concrete ZDA sentence updates the UTC field of the
display aggregator to "12:35:19". -/
theorem claim_C10_witness :
    split_fields "$GPZDA,123519,07,03,2024,,".toList =
      (some "GP".toList, some TZDA,
        ["123519".toList, "07".toList, "03".toList, "2024".toList, [], []]) ∧
    (handle_sentence_display initReader "$GPZDA,123519,07,03,2024,,".toList).state.utc =
      some "12:35:19".toList := by
  have h : split_fields "$GPZDA,123519,07,03,2024,,".toList =
      (some "GP".toList, some TZDA,
        ["123519".toList, "07".toList, "03".toList, "2024".toList, [], []]) := by decide
  refine ⟨h, ?_⟩
  rw [claim_C10.2.1 initReader _ _ _ h (by decide) (by decide)]
  decide

/-! ### Monotonicity of knowledge (claim C1) -/

lemma StMono_refl (a : NMEAState) : StMono a a := by
  unfold StMono
  exact ⟨le_refl _, le_refl _, le_refl _, le_refl _, le_refl _, le_refl _, le_refl _,
    le_refl _, le_refl _⟩

lemma StMono_trans {a b c : NMEAState} (h1 : StMono a b) (h2 : StMono b c) :
    StMono a c := by
  unfold StMono at *
  exact ⟨h1.1.trans h2.1, h1.2.1.trans h2.2.1, h1.2.2.1.trans h2.2.2.1,
    h1.2.2.2.1.trans h2.2.2.2.1, h1.2.2.2.2.1.trans h2.2.2.2.2.1,
    h1.2.2.2.2.2.1.trans h2.2.2.2.2.2.1, h1.2.2.2.2.2.2.1.trans h2.2.2.2.2.2.2.1,
    h1.2.2.2.2.2.2.2.1.trans h2.2.2.2.2.2.2.2.1,
    h1.2.2.2.2.2.2.2.2.trans h2.2.2.2.2.2.2.2.2⟩

lemma StMono_weaken {a b : NMEAState} (h : StMono a b) : StMonoNoHA a b := by
  unfold StMono at h
  unfold StMonoNoHA
  exact ⟨h.1, h.2.1, h.2.2.1, h.2.2.2.1, h.2.2.2.2.1, h.2.2.2.2.2.2.1,
    h.2.2.2.2.2.2.2.2⟩

lemma StMonoNoHA_trans {a b c : NMEAState} (h1 : StMonoNoHA a b) (h2 : StMonoNoHA b c) :
    StMonoNoHA a c := by
  unfold StMonoNoHA at *
  exact ⟨h1.1.trans h2.1, h1.2.1.trans h2.2.1, h1.2.2.1.trans h2.2.2.1,
    h1.2.2.2.1.trans h2.2.2.2.1, h1.2.2.2.2.1.trans h2.2.2.2.2.1,
    h1.2.2.2.2.2.1.trans h2.2.2.2.2.2.1, h1.2.2.2.2.2.2.trans h2.2.2.2.2.2.2⟩

lemma bumpCounts_mono (st : NMEAState) (ok : Bool) : StMono st (bumpCounts st ok) := by
  unfold bumpCounts StMono
  split <;> simp

lemma recordTalker_mono (st : NMEAState) (tk : Option PyStr) :
    StMono st (recordTalker st tk) := by
  unfold recordTalker StMono
  repeat' split
  all_goals simp

lemma setTalker_mono (st : NMEAState) (tk : Option PyStr) :
    StMono st { st with last_talker := tk } := by
  unfold StMono
  simp

lemma timeUpd_mono (st : NMEAState) (f : List PyStr) : StMono st (timeUpd st f) := by
  unfold timeUpd StMono
  repeat' split
  all_goals simp

lemma updGGA_display_mono (st : NMEAState) (f : List PyStr) :
    StMono st (updGGA_display st f) := by
  unfold updGGA_display timeUpd StMono
  repeat' split
  all_goals simp

lemma updGGA_tester_monoNoHA (st : NMEAState) (f : List PyStr) :
    StMonoNoHA st (updGGA_tester st f) := by
  unfold updGGA_tester timeUpd StMonoNoHA
  repeat' split
  all_goals simp

lemma updGSA_mono (st : NMEAState) (f : List PyStr) : StMono st (updGSA st f) := by
  simp only [updGSA]
  unfold StMono
  repeat' split
  all_goals simp

lemma updGSV_mono (st : NMEAState) (f : List PyStr) : StMono st (updGSV st f) := by
  unfold updGSV StMono
  repeat' split
  all_goals simp

lemma updZDA_display_mono (st : NMEAState) (f : List PyStr) :
    StMono st (updZDA_display st f) := by
  unfold updZDA_display timeUpd StMono
  repeat' split
  all_goals simp

lemma updZDA_tester_mono (st : NMEAState) (f : List PyStr) :
    StMono st (updZDA_tester st f) := by
  unfold updZDA_tester timeUpd StMono
  repeat' split
  all_goals simp

lemma updHDT_tester_mono (st : NMEAState) (f : List PyStr) :
    StMono st (updHDT_tester st f) := by
  unfold updHDT_tester StMono
  repeat' split
  all_goals simp

lemma updHDT_display_mono (r : DisplayReader) (f : List PyStr) :
    StMono r.state (updHDT_display r f).state := by
  unfold updHDT_display StMono
  repeat' split
  all_goals simp

/-- C1 (amended): processing any sentence never clears a previously known
optional navigation field — with the exceptions the code forces: the fix
quality (an integer defaulting to 0) is excluded in both programs, and in the
tester program HDOP and altitude are excluded (a non-empty undecodable GGA
field 7 or 8 clears them). -/
theorem claim_C1 :
    (∀ (r : DisplayReader) (line : PyStr),
        StMono r.state (handle_sentence_display r line).state) ∧
    (∀ (st : NMEAState) (line : PyStr),
        StMonoNoHA st (handle_sentence_tester st line)) := by
  constructor
  · intro r line
    simp only [handle_sentence_display]
    have hbase :
        StMono r.state
          (recordTalker (bumpCounts r.state (nmea_checksum_ok_display line))
            (split_fields line).1) :=
      StMono_trans (bumpCounts_mono _ _) (recordTalker_mono _ _)
    split_ifs with h1 h2 h3 h4 h5
    · exact StMono_trans hbase (updGGA_display_mono _ _)
    · exact StMono_trans hbase (updGSA_mono _ _)
    · exact StMono_trans hbase (updGSV_mono _ _)
    · exact StMono_trans hbase (updZDA_display_mono _ _)
    · exact StMono_trans hbase
        (updHDT_display_mono
          { r with
            state := recordTalker (bumpCounts r.state (nmea_checksum_ok_display line))
              (split_fields line).1 }
          (split_fields line).2.2)
    · exact hbase
  · intro st line
    simp only [handle_sentence_tester]
    have hbase :
        StMono st
          { bumpCounts st (nmea_checksum_ok_tester line) with
              last_talker := (split_fields line).1 } :=
      StMono_trans (bumpCounts_mono _ _) (setTalker_mono _ _)
    split_ifs with h0 h1 h2 h3 h4 h5
    · exact StMono_weaken (StMono_refl st)
    · exact StMonoNoHA_trans (StMono_weaken hbase) (updGGA_tester_monoNoHA _ _)
    · exact StMono_weaken (StMono_trans hbase (updGSA_mono _ _))
    · exact StMono_weaken (StMono_trans hbase (updGSV_mono _ _))
    · exact StMono_weaken (StMono_trans hbase (updZDA_tester_mono _ _))
    · exact StMono_weaken (StMono_trans hbase (updHDT_tester_mono _ _))
    · exact StMono_weaken hbase

/-- Counterexample for C1 as stated: the fix quality is a listed
navigation-state field, yet a GGA sentence whose field 5 is empty (hence
undecodable) overwrites a previously known fix quality 1 with 0 in the
display program (the tester behaves identically). -/
theorem claim_C1_counterexample :
    ({ initState with fix := 1 } : NMEAState).fix = 1 ∧
    safe_int ((split_fields "$GPGGA,,,,,,,,,,,,,,".toList).2.2.getD 5 []) = none ∧
    14 ≤ (split_fields "$GPGGA,,,,,,,,,,,,,,".toList).2.2.length ∧
    (handle_sentence_display
        ⟨{ initState with fix := 1 }, FIR.init 15, none, 0⟩
        "$GPGGA,,,,,,,,,,,,,,".toList).state.fix = 0 := by
  refine ⟨rfl, by decide, by decide, ?_⟩
  decide

/-! ### Checksum and talker bookkeeping (claim C7) -/

/-- The bookkeeping fields (counters and talker) are unchanged between two
states. -/
def SameBook (a b : NMEAState) : Prop :=
  b.ok_count = a.ok_count ∧ b.bad_count = a.bad_count ∧ b.last_talker = a.last_talker

lemma SameBook_trans {a b c : NMEAState} (h1 : SameBook a b) (h2 : SameBook b c) :
    SameBook a c := by
  unfold SameBook at *
  exact ⟨h2.1.trans h1.1, h2.2.1.trans h1.2.1, h2.2.2.trans h1.2.2⟩

lemma timeUpd_book (st : NMEAState) (f : List PyStr) : SameBook st (timeUpd st f) := by
  unfold timeUpd SameBook
  repeat' split
  all_goals simp

lemma updGGA_display_book (st : NMEAState) (f : List PyStr) :
    SameBook st (updGGA_display st f) := by
  unfold updGGA_display timeUpd SameBook
  repeat' split
  all_goals simp

lemma updGGA_tester_book (st : NMEAState) (f : List PyStr) :
    SameBook st (updGGA_tester st f) := by
  unfold updGGA_tester timeUpd SameBook
  repeat' split
  all_goals simp

lemma updGSA_book (st : NMEAState) (f : List PyStr) : SameBook st (updGSA st f) := by
  simp only [updGSA]
  unfold SameBook
  repeat' split
  all_goals simp

lemma updGSV_book (st : NMEAState) (f : List PyStr) : SameBook st (updGSV st f) := by
  unfold updGSV SameBook
  repeat' split
  all_goals simp

lemma updZDA_display_book (st : NMEAState) (f : List PyStr) :
    SameBook st (updZDA_display st f) := by
  unfold updZDA_display timeUpd SameBook
  repeat' split
  all_goals simp

lemma updZDA_tester_book (st : NMEAState) (f : List PyStr) :
    SameBook st (updZDA_tester st f) := by
  unfold updZDA_tester timeUpd SameBook
  repeat' split
  all_goals simp

lemma updHDT_tester_book (st : NMEAState) (f : List PyStr) :
    SameBook st (updHDT_tester st f) := by
  unfold updHDT_tester SameBook
  repeat' split
  all_goals simp

lemma updHDT_display_book (r : DisplayReader) (f : List PyStr) :
    SameBook r.state (updHDT_display r f).state := by
  unfold updHDT_display SameBook
  repeat' split
  all_goals simp

lemma recordTalker_counts (st : NMEAState) (tk : Option PyStr) :
    (recordTalker st tk).ok_count = st.ok_count ∧
    (recordTalker st tk).bad_count = st.bad_count := by
  unfold recordTalker
  repeat' split
  all_goals simp

lemma recordTalker_some {st : NMEAState} {t : PyStr} (h : ¬t.isEmpty) :
    (recordTalker st (some t)).last_talker = some t := by
  simp only [recordTalker]
  split
  · simp_all
  · rfl

lemma bumpCounts_counts (st : NMEAState) (ok : Bool) :
    (if ok = true then
        (bumpCounts st ok).ok_count = st.ok_count + 1 ∧
        (bumpCounts st ok).bad_count = st.bad_count
      else
        (bumpCounts st ok).ok_count = st.ok_count ∧
        (bumpCounts st ok).bad_count = st.bad_count + 1) := by
  unfold bumpCounts
  cases ok <;> simp

lemma bumpCounts_talker (st : NMEAState) (ok : Bool) :
    (bumpCounts st ok).last_talker = st.last_talker := by
  unfold bumpCounts
  split <;> rfl

lemma bumpCounts_true (st : NMEAState) :
    bumpCounts st true = { st with ok_count := st.ok_count + 1 } := rfl

lemma bumpCounts_false (st : NMEAState) :
    bumpCounts st false = { st with bad_count := st.bad_count + 1 } := rfl

lemma handle_display_book (r : DisplayReader) (line : PyStr) :
    SameBook
      (recordTalker (bumpCounts r.state (nmea_checksum_ok_display line))
        (split_fields line).1)
      (handle_sentence_display r line).state := by
  simp only [handle_sentence_display]
  split_ifs with h1 h2 h3 h4 h5
  · exact updGGA_display_book _ _
  · exact updGSA_book _ _
  · exact updGSV_book _ _
  · exact updZDA_display_book _ _
  · exact updHDT_display_book
      { r with
        state := recordTalker (bumpCounts r.state (nmea_checksum_ok_display line))
          (split_fields line).1 }
      (split_fields line).2.2
  · exact ⟨rfl, rfl, rfl⟩

lemma handle_tester_book (st : NMEAState) (line : PyStr)
    (hd : line.head? = some '$') :
    SameBook
      { bumpCounts st (nmea_checksum_ok_tester line) with
          last_talker := (split_fields line).1 }
      (handle_sentence_tester st line) := by
  simp only [handle_sentence_tester]
  rw [if_neg (fun hc => hc hd)]
  split_ifs with h1 h2 h3 h4 h5
  · exact updGGA_tester_book _ _
  · exact updGSA_book _ _
  · exact updGSV_book _ _
  · exact updZDA_tester_book _ _
  · exact updHDT_tester_book _ _
  · exact ⟨rfl, rfl, rfl⟩

/-- C7 (amended): the display aggregator satisfies the claim in full — every
call increments exactly one checksum counter, records the talker when one is
present, and for a structurally malformed line performs only the checksum
bookkeeping (the model is a total function, so no exception can occur).  The
tester aggregator deviates: a line without a leading `$` returns with no
update at all (no counter is incremented), and the talker is overwritten with
the parsed value even when none is present. -/
theorem claim_C7 :
    (∀ (r : DisplayReader) (line : PyStr),
        (nmea_checksum_ok_display line = true →
          (handle_sentence_display r line).state.ok_count = r.state.ok_count + 1 ∧
          (handle_sentence_display r line).state.bad_count = r.state.bad_count) ∧
        (nmea_checksum_ok_display line = false →
          (handle_sentence_display r line).state.ok_count = r.state.ok_count ∧
          (handle_sentence_display r line).state.bad_count = r.state.bad_count + 1)) ∧
    (∀ (r : DisplayReader) (line : PyStr) (t : PyStr),
        (split_fields line).1 = some t → ¬t.isEmpty = true →
        (handle_sentence_display r line).state.last_talker = some t) ∧
    (∀ (r : DisplayReader) (line : PyStr),
        split_fields line = (none, none, []) →
        handle_sentence_display r line =
          { r with state := bumpCounts r.state (nmea_checksum_ok_display line) }) ∧
    (∀ (st : NMEAState) (line : PyStr), line.head? ≠ some '$' →
        handle_sentence_tester st line = st) ∧
    (∀ (st : NMEAState) (line : PyStr), line.head? = some '$' →
        (nmea_checksum_ok_tester line = true →
          (handle_sentence_tester st line).ok_count = st.ok_count + 1 ∧
          (handle_sentence_tester st line).bad_count = st.bad_count) ∧
        (nmea_checksum_ok_tester line = false →
          (handle_sentence_tester st line).ok_count = st.ok_count ∧
          (handle_sentence_tester st line).bad_count = st.bad_count + 1) ∧
        (handle_sentence_tester st line).last_talker = (split_fields line).1) ∧
    (∀ (st : NMEAState) (line : PyStr), line.head? = some '$' →
        split_fields line = (none, none, []) →
        handle_sentence_tester st line =
          { bumpCounts st (nmea_checksum_ok_tester line) with last_talker := none }) := by
  refine ⟨?_, ?_, ?_, ?_, ?_, ?_⟩
  · intro r line
    obtain ⟨b1, b2, b3⟩ := handle_display_book r line
    have hrc :=
      recordTalker_counts (bumpCounts r.state (nmea_checksum_ok_display line))
        (split_fields line).1
    constructor
    · intro hck
      rw [hck] at b1 b2 hrc
      constructor
      · rw [b1, hrc.1, bumpCounts_true]
      · rw [b2, hrc.2, bumpCounts_true]
    · intro hck
      rw [hck] at b1 b2 hrc
      constructor
      · rw [b1, hrc.1, bumpCounts_false]
      · rw [b2, hrc.2, bumpCounts_false]
  · intro r line t hsome hne
    obtain ⟨b1, b2, b3⟩ := handle_display_book r line
    rw [b3, hsome, recordTalker_some hne]
  · intro r line hsplit
    simp only [handle_sentence_display, hsplit]
    rw [if_neg (fun hc => Option.noConfusion hc.1),
      if_neg (fun hc => Option.noConfusion hc.1),
      if_neg (fun hc => Option.noConfusion hc.1),
      if_neg (fun hc => Option.noConfusion hc.1),
      if_neg (fun hc => Option.noConfusion hc.1)]
    rfl
  · intro st line hd
    simp only [handle_sentence_tester]
    rw [if_pos hd]
  · intro st line hd
    obtain ⟨b1, b2, b3⟩ := handle_tester_book st line hd
    refine ⟨?_, ?_, ?_⟩
    · intro hck
      rw [hck] at b1 b2
      constructor
      · rw [b1, bumpCounts_true]
      · rw [b2, bumpCounts_true]
    · intro hck
      rw [hck] at b1 b2
      constructor
      · rw [b1, bumpCounts_false]
      · rw [b2, bumpCounts_false]
    · exact b3
  · intro st line hd hsplit
    simp only [handle_sentence_tester, hsplit]
    rw [if_neg (fun hc => hc hd),
      if_neg (fun hc => Option.noConfusion hc.1),
      if_neg (fun hc => Option.noConfusion hc.1),
      if_neg (fun hc => Option.noConfusion hc.1),
      if_neg (fun hc => Option.noConfusion hc.1),
      if_neg (fun hc => Option.noConfusion hc.1)]

/-- Counterexample for C7 as stated: the tester aggregator processes the
malformed line "GPGGA,1" (no leading `$`), yet neither checksum counter is
incremented — the call is a no-op. -/
theorem claim_C7_counterexample :
    handle_sentence_tester initState "GPGGA,1".toList = initState ∧
    (handle_sentence_tester initState "GPGGA,1".toList).ok_count +
      (handle_sentence_tester initState "GPGGA,1".toList).bad_count = 0 := by
  constructor
  · rfl
  · decide

/-- Witness for C7: the tester no-op branch at a concrete line, and the
display aggregator recording the talker "GP" from a concrete sentence. -/
theorem claim_C7_witness :
    (("X:".toList : PyStr).head? ≠ some '$') ∧
    handle_sentence_tester initState "X:".toList = initState ∧
    (split_fields "$GPGGA,1,2".toList).1 = some "GP".toList ∧
    ¬("GP".toList : PyStr).isEmpty = true ∧
    (handle_sentence_display initReader "$GPGGA,1,2".toList).state.last_talker =
      some "GP".toList :=
  ⟨by decide, claim_C7.2.2.2.1 initState "X:".toList (by decide), by decide, by decide,
    claim_C7.2.1 initReader "$GPGGA,1,2".toList "GP".toList (by decide) (by decide)⟩

/-! ### Arithmetic facts about the angle normalisation -/

lemma pymod_eq_fract (a b : ℝ) (hb : b ≠ 0) : pymod a b = b * Int.fract (a / b) := by
  unfold pymod Int.fract
  field_simp

lemma norm360_eq (a : ℝ) : norm360 a = 360 * Int.fract (a / 360) := by
  unfold norm360
  rw [pymod_eq_fract _ _ (by norm_num), pymod_eq_fract _ _ (by norm_num)]
  have h1 : (360 * Int.fract (a / 360) + 360) / 360 = Int.fract (a / 360) + 1 := by
    field_simp
    ring
  rw [h1, show (1 : ℝ) = ((1 : ℤ) : ℝ) by norm_num, Int.fract_add_int, Int.fract_fract]

lemma norm360_nonneg (a : ℝ) : 0 ≤ norm360 a := by
  rw [norm360_eq]
  have := Int.fract_nonneg (a / 360)
  linarith

lemma norm360_lt (a : ℝ) : norm360 a < 360 := by
  rw [norm360_eq]
  have := Int.fract_lt_one (a / 360)
  linarith

lemma norm360_eq_self {a : ℝ} (h0 : 0 ≤ a) (h1 : a < 360) : norm360 a = a := by
  rw [norm360_eq, Int.fract_eq_self.mpr ⟨by positivity, by linarith⟩]
  ring

lemma norm360_sub_360 (a : ℝ) : norm360 (a - 360) = norm360 a := by
  rw [norm360_eq, norm360_eq]
  have h : (a - 360) / 360 = a / 360 - ((1 : ℤ) : ℝ) := by
    push_cast
    ring
  rw [h, Int.fract_sub_int]

lemma norm360_norm360 (a : ℝ) : norm360 (norm360 a) = norm360 a :=
  norm360_eq_self (norm360_nonneg a) (norm360_lt a)

/-! ### The HDT branch (claim C5) -/

lemma bumpCounts_heading (st : NMEAState) (ok : Bool) :
    (bumpCounts st ok).heading_T = st.heading_T := by
  unfold bumpCounts
  split <;> rfl

lemma recordTalker_heading (st : NMEAState) (tk : Option PyStr) :
    (recordTalker st tk).heading_T = st.heading_T := by
  unfold recordTalker
  repeat' split
  all_goals rfl

lemma handle_display_hdt (r : DisplayReader) (line : PyStr) (tk : Option PyStr)
    (f : List PyStr) (hsplit : split_fields line = (tk, some THDT, f))
    (h2 : 2 ≤ f.length) :
    handle_sentence_display r line =
      updHDT_display
        { r with
          state := recordTalker (bumpCounts r.state (nmea_checksum_ok_display line)) tk }
        f := by
  simp only [handle_sentence_display, hsplit]
  rw [if_neg (by intro hc; exact absurd hc.1 (by decide)),
    if_neg (by intro hc; exact absurd hc.1 (by decide)),
    if_neg (by intro hc; exact absurd hc.1 (by decide)),
    if_neg (by intro hc; exact absurd hc.1 (by decide)),
    if_pos ⟨trivial, h2⟩]

lemma handle_tester_hdt (st : NMEAState) (line : PyStr) (tk : Option PyStr)
    (f : List PyStr) (hd : line.head? = some '$')
    (hsplit : split_fields line = (tk, some THDT, f)) (h2 : 2 ≤ f.length) :
    handle_sentence_tester st line =
      updHDT_tester
        { bumpCounts st (nmea_checksum_ok_tester line) with last_talker := tk } f := by
  simp only [handle_sentence_tester, hsplit]
  rw [if_neg (fun hc => hc hd),
    if_neg (by intro hc; exact absurd hc.1 (by decide)),
    if_neg (by intro hc; exact absurd hc.1 (by decide)),
    if_neg (by intro hc; exact absurd hc.1 (by decide)),
    if_neg (by intro hc; exact absurd hc.1 (by decide)),
    if_pos ⟨trivial, h2⟩]

lemma updHDT_display_some {r : DisplayReader} {f : List PyStr} {hdg : ℝ}
    (h : safe_float (f.getD 0 []) = some hdg) :
    updHDT_display r f =
      { r with
        state := { r.state with heading_T := some (norm360 hdg) },
        fir := r.fir.add (norm360 hdg),
        filtered_heading :=
          match (r.fir.add (norm360 hdg)).value with
          | none => none
          | some v => some (norm360 (v + r.heading_offset_deg)) } := by
  simp only [updHDT_display, h]

lemma updHDT_display_none {r : DisplayReader} {f : List PyStr}
    (h : safe_float (f.getD 0 []) = none) : updHDT_display r f = r := by
  simp only [updHDT_display, h]

lemma FIR.add_def (f : FIR) (d : ℝ) :
    f.add d =
      if f.window < f.angles.length + 1 then
        ⟨f.window, (f.angles ++ [radSample d]).tail,
          f.sum_sin + Real.sin (radSample d) -
            Real.sin ((f.angles ++ [radSample d]).headD 0),
          f.sum_cos + Real.cos (radSample d) -
            Real.cos ((f.angles ++ [radSample d]).headD 0)⟩
      else
        ⟨f.window, f.angles ++ [radSample d], f.sum_sin + Real.sin (radSample d),
          f.sum_cos + Real.cos (radSample d)⟩ := by
  unfold FIR.add radSample
  simp [List.length_append]

lemma FIR.add_value_some (f : FIR) (d : ℝ) (hw : 1 ≤ f.window) :
    ∃ v, (f.add d).value = some v := by
  rw [FIR.add_def]
  unfold FIR.value
  split
  · rename_i hlen
    cases hA : f.angles with
    | nil => rw [hA] at hlen; simp at hlen; omega
    | cons a as => simp
  · simp

/-- C5 (amended): in the display program an HDT sentence with a decodable
field 0 stores the normalised heading, feeds the raw normalised value to the
filter, and publishes the filter value plus offset normalised (the filter
value exists whenever the window is at least one, which the constructor
guarantees); an undecodable field leaves all heading state unchanged.  The
tester program deviates: it stores the decoded heading without
normalisation and has no heading filter. -/
theorem claim_C5 :
    (∀ (r : DisplayReader) (line : PyStr) (tk : Option PyStr) (f : List PyStr)
        (hdg : ℝ),
        split_fields line = (tk, some THDT, f) → 2 ≤ f.length →
        safe_float (f.getD 0 []) = some hdg →
        (handle_sentence_display r line).state.heading_T = some (norm360 hdg) ∧
        (handle_sentence_display r line).fir = r.fir.add (norm360 hdg) ∧
        (handle_sentence_display r line).filtered_heading =
          (match (r.fir.add (norm360 hdg)).value with
            | none => none
            | some v => some (norm360 (v + r.heading_offset_deg))) ∧
        (1 ≤ r.fir.window → ∃ v, (r.fir.add (norm360 hdg)).value = some v)) ∧
    (∀ (r : DisplayReader) (line : PyStr) (tk : Option PyStr) (f : List PyStr),
        split_fields line = (tk, some THDT, f) → 2 ≤ f.length →
        safe_float (f.getD 0 []) = none →
        (handle_sentence_display r line).state.heading_T = r.state.heading_T ∧
        (handle_sentence_display r line).fir = r.fir ∧
        (handle_sentence_display r line).filtered_heading = r.filtered_heading) ∧
    (∀ (st : NMEAState) (line : PyStr) (tk : Option PyStr) (f : List PyStr)
        (hdg : ℝ),
        line.head? = some '$' →
        split_fields line = (tk, some THDT, f) → 2 ≤ f.length →
        safe_float (f.getD 0 []) = some hdg →
        (handle_sentence_tester st line).heading_T = some hdg) ∧
    (∀ (st : NMEAState) (line : PyStr) (tk : Option PyStr) (f : List PyStr),
        line.head? = some '$' →
        split_fields line = (tk, some THDT, f) → 2 ≤ f.length →
        safe_float (f.getD 0 []) = none →
        (handle_sentence_tester st line).heading_T = st.heading_T) := by
  refine ⟨?_, ?_, ?_, ?_⟩
  · intro r line tk f hdg hsplit h2 hsf
    rw [handle_display_hdt r line tk f hsplit h2, updHDT_display_some hsf]
    exact ⟨rfl, rfl, rfl, fun hw => FIR.add_value_some r.fir (norm360 hdg) hw⟩
  · intro r line tk f hsplit h2 hsf
    rw [handle_display_hdt r line tk f hsplit h2, updHDT_display_none hsf]
    refine ⟨?_, rfl, rfl⟩
    show (recordTalker (bumpCounts r.state (nmea_checksum_ok_display line)) tk).heading_T
      = r.state.heading_T
    rw [recordTalker_heading, bumpCounts_heading]
  · intro st line tk f hdg hd hsplit h2 hsf
    rw [handle_tester_hdt st line tk f hd hsplit h2]
    simp only [updHDT_tester, hsf]
  · intro st line tk f hd hsplit h2 hsf
    rw [handle_tester_hdt st line tk f hd hsplit h2]
    simp only [updHDT_tester, hsf]
    exact bumpCounts_heading st _

/-- Counterexample for C5 as stated: the tester aggregator stores the raw
heading 370.0 without normalisation — 370 differs from the normalised value
norm360(370) = 10. -/
theorem claim_C5_counterexample :
    (handle_sentence_tester initState "$GPHDT,370.0,T".toList).heading_T =
      some (370 : ℝ) ∧
    norm360 (370 : ℝ) = 10 ∧ (370 : ℝ) ≠ 10 := by
  refine ⟨?_, ?_, by norm_num⟩
  · have hsplit : split_fields "$GPHDT,370.0,T".toList =
        (some "GP".toList, some THDT, ["370.0".toList, "T".toList]) := by decide
    rw [handle_tester_hdt initState _ _ _ (by decide) hsplit (by decide)]
    have hp : parseFloatParts "370.0".toList = some (3700, 1, 0) := by decide
    have hsf : safe_float "370.0".toList = some ((370 : ℝ)) := by
      simp only [safe_float, safe_floatQ, hp, Option.map_some]
      norm_num
    simp only [updHDT_tester]
    rw [show (["370.0".toList, "T".toList].getD 0 []) = "370.0".toList from rfl, hsf]
  · rw [norm360_eq]
    have h370 : (370 : ℝ) / 360 = 10 / 360 + ((1 : ℤ) : ℝ) := by
      push_cast
      norm_num
    rw [h370, Int.fract_add_int, Int.fract_eq_self.mpr ⟨by norm_num, by norm_num⟩]
    norm_num

/-- Witness for C5: a concrete HDT sentence through the display aggregator. -/
theorem claim_C5_witness :
    split_fields "$GPHDT,90.5,T".toList =
      (some "GP".toList, some THDT, ["90.5".toList, "T".toList]) ∧
    safe_float "90.5".toList = some ((181 : ℝ) / 2) ∧
    (handle_sentence_display initReader "$GPHDT,90.5,T".toList).state.heading_T =
      some (norm360 ((181 : ℝ) / 2)) := by
  have h1 : split_fields "$GPHDT,90.5,T".toList =
      (some "GP".toList, some THDT, ["90.5".toList, "T".toList]) := by decide
  have hp : parseFloatParts "90.5".toList = some (905, 1, 0) := by decide
  have h2 : safe_float "90.5".toList = some ((181 : ℝ) / 2) := by
    simp only [safe_float, safe_floatQ, hp, Option.map_some]
    norm_num
  exact ⟨h1, h2, (claim_C5.1 initReader _ _ _ _ h1 (by decide) h2).1⟩

/-! ### The filter window (claims C8 and C3) -/

lemma evictTo_eq (w : Nat) :
    ∀ (angles : List ℝ) (ss sc : ℝ),
      evictTo w angles ss sc =
        (angles.drop (angles.length - w),
          ss - ((angles.take (angles.length - w)).map Real.sin).sum,
          sc - ((angles.take (angles.length - w)).map Real.cos).sum) := by
  intro angles
  induction angles with
  | nil => intro ss sc; simp [evictTo]
  | cons a as ih =>
    intro ss sc
    unfold evictTo
    split
    · rename_i hlt
      rw [ih]
      have hw : w ≤ as.length := by
        simp at hlt
        omega
      have hlen : (a :: as).length - w = (as.length - w) + 1 := by
        simp
        omega
      rw [hlen]
      simp only [Prod.mk.injEq]
      refine ⟨rfl, ?_, ?_⟩
      · simp
        ring
      · simp
        ring
    · rename_i hge
      have h0 : (a :: as).length - w = 0 := by
        simp at hge ⊢
        omega
      rw [h0]
      simp

lemma sum_map_take_drop (g : ℝ → ℝ) (l : List ℝ) (k : Nat) :
    ((l.map g).sum) = ((l.take k).map g).sum + ((l.drop k).map g).sum := by
  conv_lhs => rw [← List.take_append_drop k l]
  rw [List.map_append, List.sum_append]

lemma FIR.set_window_spec (f : FIR) (n : Int) (hwf : f.Wf) :
    ((f.set_window n).window : Int) = max 1 n ∧
    (f.set_window n).angles = f.angles.drop (f.angles.length - (max 1 n).toNat) ∧
    (f.set_window n).angles.length ≤ (max 1 n).toNat ∧
    (f.set_window n).Wf := by
  obtain ⟨h1, h2⟩ := hwf
  simp only [FIR.set_window]
  rw [evictTo_eq]
  dsimp only
  refine ⟨?_, rfl, ?_, ?_, ?_⟩
  · rw [Int.toNat_of_nonneg (le_trans zero_le_one (le_max_left 1 n))]
  · simp only [List.length_drop]
    omega
  · rw [h1, sum_map_take_drop Real.sin f.angles (f.angles.length - (max 1 n).toNat)]
    ring
  · rw [h2, sum_map_take_drop Real.cos f.angles (f.angles.length - (max 1 n).toNat)]
    ring

/-- C8: for every integer n and every Heading Filter state satisfying the
data-model invariant, `set_window n` sets the window to `max 1 n`, retains
exactly the newest samples (dropping the oldest beyond the new window), keeps
at most `max 1 n` samples, and leaves the running sums equal to the sums over
exactly the retained samples. -/
theorem claim_C8 (f : FIR) (n : Int) (hwf : f.Wf) :
    ((f.set_window n).window : Int) = max 1 n ∧
    (f.set_window n).angles = f.angles.drop (f.angles.length - (max 1 n).toNat) ∧
    (f.set_window n).angles.length ≤ (max 1 n).toNat ∧
    (f.set_window n).Wf :=
  FIR.set_window_spec f n hwf

/-- Witness for C8 at a concrete filter and window size. -/
theorem claim_C8_witness :
    (FIR.init 5).Wf ∧ (((FIR.init 5).set_window 3).window : Int) = max 1 3 ∧
    ((FIR.init 5).set_window 3).Wf := by
  have hwf : (FIR.init 5).Wf := by
    constructor <;> simp [FIR.init]
  exact ⟨hwf, (claim_C8 (FIR.init 5) 3 hwf).1, (claim_C8 (FIR.init 5) 3 hwf).2.2.2⟩

lemma FIR.add_window (f : FIR) (d : ℝ) : (f.add d).window = f.window := by
  rw [FIR.add_def]
  split <;> rfl

lemma FIR.add_wf (f : FIR) (d : ℝ) (hwf : f.Wf) : (f.add d).Wf := by
  obtain ⟨h1, h2⟩ := hwf
  rw [FIR.add_def]
  split
  · constructor
    · cases hA : f.angles with
      | nil =>
        rw [hA] at h1
        simp at h1
        simp [hA, h1]
      | cons a as =>
        rw [hA] at h1
        simp at h1
        simp [hA, h1]
        ring
    · cases hA : f.angles with
      | nil =>
        rw [hA] at h2
        simp at h2
        simp [hA, h2]
      | cons a as =>
        rw [hA] at h2
        simp at h2
        simp [hA, h2]
        ring
  · constructor
    · simp [h1]
    · simp [h2]

lemma FIR.add_angles (f : FIR) (d : ℝ) (hw : 1 ≤ f.window)
    (hlen : f.angles.length ≤ f.window) :
    (f.add d).angles = (f.angles ++ [radSample d]).drop (f.angles.length + 1 - f.window) := by
  rw [FIR.add_def]
  split
  · rename_i hlt
    have h1 : f.angles.length + 1 - f.window = 1 := by omega
    rw [h1, List.drop_one]
  · rename_i hge
    have h0 : f.angles.length + 1 - f.window = 0 := by omega
    rw [h0, List.drop_zero]

lemma FIR.add_angles_concat (f : FIR) (d : ℝ) (hw : 1 ≤ f.window) :
    ∃ A, (f.add d).angles = A ++ [radSample d] := by
  rw [FIR.add_def]
  split
  · rename_i hlt
    cases hA : f.angles with
    | nil =>
      rw [hA] at hlt
      simp at hlt
      omega
    | cons a as =>
      refine ⟨as, ?_⟩
      simp
  · exact ⟨f.angles, rfl⟩

lemma drop_window_step {α : Type} (l : List α) (r : α) (W : Nat) (hW : 1 ≤ W) :
    ((l.drop (l.length - W)) ++ [r]).drop ((l.length - (l.length - W)) + 1 - W) =
      (l ++ [r]).drop (l.length + 1 - W) := by
  rcases lt_or_le l.length W with hk | hk
  · have e1 : l.length - W = 0 := by omega
    have e2 : l.length - 0 + 1 - W = 0 := by omega
    have e3 : l.length + 1 - W = 0 := by omega
    rw [e1, e2, e3, List.drop_zero, List.drop_zero, List.drop_zero]
  · have e1 : l.length - (l.length - W) = W := by omega
    have e2 : W + 1 - W = 1 := by omega
    rw [e1, e2, List.drop_append_eq_append_drop, List.drop_append_eq_append_drop]
    have hlen1 : (l.drop (l.length - W)).length = W := by
      simp
      omega
    have e3 : 1 - W = 0 := by omega
    have e4 : l.length + 1 - W - l.length = 0 := by omega
    rw [hlen1, e3, e4, List.drop_zero, List.drop_drop]
    have e5 : l.length - W + 1 = l.length + 1 - W := by omega
    rw [e5]

lemma foldl_add_spec (w : Int) (ds : List ℝ) :
    (ds.foldl FIR.add (FIR.init w)).window = (max 1 w).toNat ∧
    (ds.foldl FIR.add (FIR.init w)).Wf ∧
    (ds.foldl FIR.add (FIR.init w)).angles =
      (ds.map radSample).drop (ds.length - (max 1 w).toNat) ∧
    (ds.foldl FIR.add (FIR.init w)).angles.length ≤ (max 1 w).toNat := by
  have hmax : 1 ≤ max 1 w := le_max_left 1 w
  have hW1 : 1 ≤ (max 1 w).toNat := by omega
  induction ds using List.reverseRecOn with
  | nil =>
    refine ⟨rfl, ⟨by simp [FIR.init], by simp [FIR.init]⟩, by simp [FIR.init], by
      simp [FIR.init]⟩
  | append_singleton l d ih =>
    obtain ⟨ihw, ihwf, ihang, ihlen⟩ := ih
    rw [List.foldl_append, List.foldl_cons, List.foldl_nil]
    set F := l.foldl FIR.add (FIR.init w) with hF
    have hw' : 1 ≤ F.window := by rw [ihw]; exact hW1
    have hlen' : F.angles.length ≤ F.window := by rw [ihw]; exact ihlen
    refine ⟨?_, FIR.add_wf F d ihwf, ?_, ?_⟩
    · rw [FIR.add_window, ihw]
    · rw [FIR.add_angles F d hw' hlen', ihang, ihw]
      have hlang : ((l.map radSample).drop (l.length - (max 1 w).toNat)).length =
          l.length - (l.length - (max 1 w).toNat) := by
        simp
      rw [hlang]
      have := drop_window_step (l.map radSample) (radSample d) (max 1 w).toNat hW1
      simp only [List.length_map] at this
      rw [this]
      simp
    · rw [FIR.add_angles F d hw' hlen', ihang, ihw]
      simp
      omega

lemma atan2_sin_cos_radSample (d : ℝ) :
    norm360 (degreesOf (atan2 (Real.sin (radSample d)) (Real.cos (radSample d)))) =
      norm360 d := by
  have hx0 := norm360_nonneg d
  have hx1 := norm360_lt d
  set x := norm360 d with hxdef
  have hpi := Real.pi_pos
  have harg : atan2 (Real.sin (radiansOf x)) (Real.cos (radiansOf x)) =
      Complex.arg (Complex.cos (radiansOf x) + Complex.sin (radiansOf x) * Complex.I) := by
    unfold atan2
    rw [Complex.ofReal_cos, Complex.ofReal_sin]
  unfold radSample
  rw [harg]
  by_cases hle : x ≤ 180
  · have hmem : (radiansOf x : ℝ) ∈ Set.Ioc (-Real.pi) Real.pi := by
      constructor
      · unfold radiansOf
        nlinarith
      · unfold radiansOf
        nlinarith
    rw [Complex.arg_cos_add_sin_mul_I hmem]
    have hdeg : degreesOf (radiansOf x) = x := by
      unfold degreesOf radiansOf
      field_simp
    rw [hdeg, norm360_norm360]
  · push_neg at hle
    have hc : Complex.cos (radiansOf x) = Complex.cos (radiansOf x - 2 * Real.pi) := by
      rw [Complex.cos_sub_two_pi]
    have hs : Complex.sin (radiansOf x) = Complex.sin (radiansOf x - 2 * Real.pi) := by
      rw [Complex.sin_sub_two_pi]
    have hcast : ((radiansOf x - 2 * Real.pi : ℝ) : ℂ) =
        (radiansOf x : ℂ) - 2 * Real.pi := by
      push_cast
      ring
    rw [hc, hs, ← hcast]
    have hmem : (radiansOf x - 2 * Real.pi : ℝ) ∈ Set.Ioc (-Real.pi) Real.pi := by
      constructor
      · unfold radiansOf
        nlinarith
      · unfold radiansOf
        nlinarith
    rw [Complex.arg_cos_add_sin_mul_I hmem]
    have hdeg : degreesOf (radiansOf x - 2 * Real.pi) = x - 360 := by
      unfold degreesOf radiansOf
      field_simp
      ring
    rw [hdeg, norm360_sub_360, norm360_norm360]

/-- C3: starting from a fresh filter, `value()` is unset exactly when no
samples were added, and otherwise equals `atan2` of the running sums — which
are the sums of the sines and cosines of exactly the most recent
`window` samples (fewer if fewer were added) — converted to degrees and
normalised to [0, 360); and for any invariant-respecting filter, adding a
sample and shrinking the window to 1 makes `value()` the normalised last
sample. -/
theorem claim_C3 :
    (∀ (w : Int) (ds : List ℝ),
        (ds.foldl FIR.add (FIR.init w)).value = none ↔ ds = []) ∧
    (∀ (w : Int) (ds : List ℝ), ds ≠ [] →
        (ds.foldl FIR.add (FIR.init w)).value =
          some (norm360 (degreesOf (atan2
            ((((ds.map radSample).drop (ds.length - (max 1 w).toNat)).map Real.sin).sum)
            ((((ds.map radSample).drop (ds.length - (max 1 w).toNat)).map Real.cos).sum))))) ∧
    (∀ (f : FIR) (d : ℝ), f.Wf → 1 ≤ f.window →
        ((f.add d).set_window 1).value = some (norm360 d)) := by
  have key : ∀ (w : Int) (ds : List ℝ), ds ≠ [] →
      (ds.foldl FIR.add (FIR.init w)).value =
        some (norm360 (degreesOf (atan2
          ((((ds.map radSample).drop (ds.length - (max 1 w).toNat)).map Real.sin).sum)
          ((((ds.map radSample).drop (ds.length - (max 1 w).toNat)).map Real.cos).sum)))) := by
    intro w ds hne
    obtain ⟨hw, ⟨hs, hc⟩, hang, hlen⟩ := foldl_add_spec w ds
    have hmax : 1 ≤ max 1 w := le_max_left 1 w
    have hW1 : 1 ≤ (max 1 w).toNat := by omega
    have hk : 1 ≤ ds.length := List.length_pos.mpr hne
    have hnem : ¬((ds.foldl FIR.add (FIR.init w)).angles.isEmpty = true) := by
      rw [hang]
      intro hemp
      rw [List.isEmpty_iff] at hemp
      have := congrArg List.length hemp
      simp at this
      omega
    unfold FIR.value
    rw [if_neg hnem, hs, hc, hang]
  refine ⟨?_, key, ?_⟩
  · intro w ds
    constructor
    · intro hv
      by_contra hne
      rw [key w ds hne] at hv
      exact Option.noConfusion hv
    · intro h
      subst h
      simp [FIR.value, FIR.init]
  · intro f d hwf hw
    obtain ⟨A, hA⟩ := FIR.add_angles_concat f d hw
    have hwfg := FIR.add_wf f d hwf
    obtain ⟨hw1, hang, hlen, ⟨hs, hc⟩⟩ := FIR.set_window_spec (f.add d) 1 hwfg
    have hang2 : ((f.add d).set_window 1).angles = [radSample d] := by
      rw [hang, hA]
      have h1 : (max 1 (1 : Int)).toNat = 1 := by decide
      rw [h1]
      have h2 : (A ++ [radSample d]).length - 1 = A.length := by simp
      rw [h2, List.drop_append_eq_append_drop, List.drop_length]
      simp
    unfold FIR.value
    rw [if_neg (by rw [hang2]; simp), hs, hc, hang2]
    simp only [List.map_cons, List.map_nil, List.sum_cons, List.sum_nil, add_zero]
    rw [atan2_sin_cos_radSample]

/-- Witness for C3: one sample then window 1 yields the normalised sample. -/
theorem claim_C3_witness :
    ((([42] : List ℝ)) ≠ []) ∧
    (FIR.init 15).Wf ∧ 1 ≤ (FIR.init 15).window ∧
    (((FIR.init 15).add 42).set_window 1).value = some (norm360 42) := by
  have hwf : (FIR.init 15).Wf := by
    constructor <;> simp [FIR.init]
  have hw : 1 ≤ (FIR.init 15).window := by
    rw [show (FIR.init 15).window = 15 from rfl]
    omega
  exact ⟨by simp, hwf, hw, claim_C3.2.2 (FIR.init 15) 42 hwf hw⟩

/-! ### Checksum comparison details (claims C9 and C2) -/

lemma toDigitsCore_mono (b : Nat) :
    ∀ (f n : Nat) (ds : List Char), ds.length ≤ (Nat.toDigitsCore b f n ds).length := by
  intro f
  induction f with
  | zero =>
    intro n ds
    simp [Nat.toDigitsCore]
  | succ f ih =>
    intro n ds
    simp only [Nat.toDigitsCore]
    split
    · simp
    · have := ih (n / b) (Nat.digitChar (n % b) :: ds)
      simp at this ⊢
      omega

lemma toDigits_min_len (b n : Nat) : 1 ≤ (Nat.toDigits b n).length := by
  show 1 ≤ (Nat.toDigitsCore b (n + 1) n []).length
  simp only [Nat.toDigitsCore]
  split
  · simp
  · have := toDigitsCore_mono b n (n / b) [Nat.digitChar (n % b)]
    simp at this ⊢
    omega

lemma toHexMin2_length (n : Nat) : 2 ≤ (toHexMin2 n).length := by
  have h1 : 1 ≤ (Nat.toDigits 16 n).length := toDigits_min_len 16 n
  simp only [toHexMin2]
  split
  · simp
    exact h1
  · rename_i h
    simp at h ⊢
    omega

lemma csMatch_short {cs : PyStr} (chk : Nat) (h : cs.length < 2) :
    csMatch cs chk = false := by
  unfold csMatch
  rw [beq_eq_false_iff_ne]
  intro heq
  have hlen := congrArg List.length heq
  have h2 := toHexMin2_length chk
  simp at hlen
  omega

/-- C9: the checksum comparison uses only the first two characters after the
first `*`, after uppercasing them — characters beyond the first two are
ignored, the comparison is case-insensitive on the suffix (so a lowercase
checksum is accepted, illustrated on a concrete sentence), and a suffix
shorter than two characters always fails, in both programs. -/
theorem claim_C9 :
    (∀ (cs : PyStr) (chk : Nat), csMatch cs chk = csMatch (cs.take 2) chk) ∧
    (∀ (cs1 cs2 : PyStr) (chk : Nat),
        (cs1.take 2).map pyToUpper = (cs2.take 2).map pyToUpper →
        csMatch cs1 chk = csMatch cs2 chk) ∧
    (nmea_checksum_ok_display "$AK*0a".toList = true ∧
      nmea_checksum_ok_display "$AK*0A".toList = true ∧
      nmea_checksum_ok_display "$AK*0Aignored".toList = true ∧
      nmea_checksum_ok_tester "$AK*0a".toList = true) ∧
    (∀ (s data cs : PyStr),
        splitOnce (· == '*') ((pyStrip s).drop 1) = some (data, cs) →
        cs.length < 2 →
        nmea_checksum_ok_display s = false ∧ nmea_checksum_ok_tester s = false) := by
  refine ⟨?_, ?_, ⟨by decide, by decide, by decide, by decide⟩, ?_⟩
  · intro cs chk
    unfold csMatch
    simp [List.take_take]
  · intro cs1 cs2 chk h
    unfold csMatch
    rw [h]
  · intro s data cs hsplit hlen
    constructor
    · unfold nmea_checksum_ok_display
      split
      · rfl
      · rw [hsplit]
        exact csMatch_short _ hlen
    · unfold nmea_checksum_ok_tester
      split
      · rfl
      · rw [hsplit]
        exact csMatch_short _ hlen

/-- Witness for C9: the short-suffix clause at a concrete sentence. -/
theorem claim_C9_witness :
    splitOnce (· == '*') ((pyStrip "$AB*0".toList).drop 1) =
      some ("AB".toList, "0".toList) ∧
    ("0".toList : PyStr).length < 2 ∧
    nmea_checksum_ok_display "$AB*0".toList = false ∧
    nmea_checksum_ok_tester "$AB*0".toList = false := by
  have h1 : splitOnce (· == '*') ((pyStrip "$AB*0".toList).drop 1) =
      some ("AB".toList, "0".toList) := by decide
  have h2 : ("0".toList : PyStr).length < 2 := by decide
  obtain ⟨ha9, hb⟩ := claim_C9.2.2.2 "$AB*0".toList "AB".toList "0".toList h1 h2
  exact ⟨h1, h2, ha9, hb⟩

lemma dropWhile_append_last {α : Type} {p : α → Bool} {x : α} (hx : p x = false) :
    ∀ A : List α, (A ++ [x]).dropWhile p = A.dropWhile p ++ [x] := by
  intro A
  induction A with
  | nil => simp [hx]
  | cons a A2 ih =>
    by_cases ha : p a
    · simp [List.dropWhile_cons, ha, ih]
    · simp [List.dropWhile_cons, ha]

lemma pyStrip_cons {c : Char} (hc : pyIsSpace c = false) (rest : PyStr) :
    pyStrip (c :: rest) = c :: (rest.reverse.dropWhile pyIsSpace).reverse := by
  unfold pyStrip
  rw [List.dropWhile_cons]
  rw [hc]
  simp only [Bool.false_eq_true, if_false, List.reverse_cons]
  rw [dropWhile_append_last hc, List.reverse_append]
  simp

lemma mem_dropWhile {α : Type} {p : α → Bool} {c : α} (hc : p c = false) :
    ∀ l : List α, c ∈ l → c ∈ l.dropWhile p := by
  intro l
  induction l with
  | nil => intro h; exact absurd h (List.not_mem_nil c)
  | cons a l2 ih =>
    intro h
    by_cases ha : p a
    · rw [List.dropWhile_cons, ha]
      simp only [if_true]
      rcases List.mem_cons.mp h with rfl | h2
      · rw [hc] at ha
        exact absurd ha (by simp)
      · exact ih h2
    · rw [List.dropWhile_cons]
      simp [ha]
      exact List.mem_cons.mp h

lemma mem_pyStrip {c : Char} (hc : pyIsSpace c = false) {s : PyStr} (h : c ∈ s) :
    c ∈ pyStrip s := by
  unfold pyStrip
  rw [List.mem_reverse]
  apply mem_dropWhile hc
  rw [List.mem_reverse]
  exact mem_dropWhile hc s h

lemma splitOnce_char (l : PyStr) :
    splitOnce (· == '*') l =
      if '*' ∈ l then
        some (l.takeWhile (fun c => !(c == '*')),
          (l.dropWhile (fun c => !(c == '*'))).drop 1)
      else none := by
  induction l with
  | nil => simp [splitOnce]
  | cons c rest ih =>
    by_cases hc : c = '*'
    · subst hc
      simp [splitOnce]
    · have hcb : (c == '*') = false := by
        simp [hc]
      rw [show splitOnce (· == '*') (c :: rest) =
          (splitOnce (· == '*') rest).map (fun q => (c :: q.1, q.2)) by
        simp [splitOnce, hcb]]
      rw [ih]
      by_cases hmem : '*' ∈ rest
      · rw [if_pos hmem, if_pos (List.mem_cons_of_mem c hmem)]
        simp [List.takeWhile_cons, List.dropWhile_cons, hcb]
      · rw [if_neg hmem, if_neg (by
          intro hx
          rcases List.mem_cons.mp hx with h1 | h2
          · exact hc h1.symm
          · exact hmem h2)]
        rfl

lemma checksum_core (l : PyStr) :
    (match splitOnce (· == '*') l with
      | none => false
      | some (data, cs) => csMatch cs (xorOf data)) = true ↔
    ('*' ∈ l ∧
      ((afterStar l).take 2).map pyToUpper = toHexMin2 (xorOf (beforeStar l))) := by
  rw [splitOnce_char]
  by_cases hm : '*' ∈ l
  · rw [if_pos hm]
    simp only [csMatch, afterStar, beforeStar, beq_iff_eq]
    simp [hm]
  · rw [if_neg hm]
    simp [hm]

/-- C2 (amended): the display verifier returns true exactly when the line
starts with `$`, contains a `*`, and the two characters after the first `*`
(read case-insensitively) spell the XOR of the characters between `$` and the
first `*` as two uppercase hexadecimal digits; any malformed structure yields
false (the functions are total, so no exception can occur).  The tester
verifier omits the leading-`$` requirement: it accepts any line containing a
`*` whose stripped tail (after dropping the first character, whatever it is)
passes the same comparison. -/
theorem claim_C2 :
    (∀ s : PyStr,
        nmea_checksum_ok_display s = true ↔
          s.head? = some '$' ∧ '*' ∈ s ∧ checksumSpecOk s) ∧
    (∀ s : PyStr,
        nmea_checksum_ok_tester s = true ↔
          '*' ∈ s ∧ '*' ∈ (pyStrip s).drop 1 ∧
          ((afterStar ((pyStrip s).drop 1)).take 2).map pyToUpper =
            toHexMin2 (xorOf (beforeStar ((pyStrip s).drop 1)))) := by
  constructor
  · intro s
    unfold nmea_checksum_ok_display
    split
    · rename_i hguard
      constructor
      · intro hfalse
        exact absurd hfalse (by simp)
      · rintro ⟨hhead, hstar, _⟩
        have hc : s.contains '*' = true := List.elem_iff.mpr hstar
        have hh : (s.head? == some '$') = true := by
          rw [beq_iff_eq]
          exact hhead
        rw [hc, hh] at hguard
        simp at hguard
    · rename_i hguard
      simp only [Bool.or_eq_true, Bool.not_eq_true'] at hguard
      push_neg at hguard
      have hc : s.contains '*' = true := Bool.ne_false_iff.mp hguard.1
      have hh : (s.head? == some '$') = true := Bool.ne_false_iff.mp hguard.2
      have hhead : s.head? = some '$' := by
        rw [← beq_iff_eq]
        exact hh
      have hstar : '*' ∈ s := List.elem_iff.mp hc
      rw [checksum_core]
      cases s with
      | nil => simp at hhead
      | cons c rest =>
        have hc2 : c = '$' := by
          simp at hhead
          exact hhead
        subst hc2
        have hstrip : pyStrip ('$' :: rest) =
            '$' :: (rest.reverse.dropWhile pyIsSpace).reverse :=
          pyStrip_cons (by decide) rest
        have hmemTL : '*' ∈ (pyStrip ('$' :: rest)).drop 1 := by
          have h1 : '*' ∈ pyStrip ('$' :: rest) := mem_pyStrip (by decide) hstar
          rw [hstrip] at h1 ⊢
          rcases List.mem_cons.mp h1 with h2 | h2
          · exact absurd h2 (by decide)
          · simpa using h2
        have hAfter : afterStar (pyStrip ('$' :: rest)) =
            afterStar ((pyStrip ('$' :: rest)).drop 1) := by
          rw [hstrip]
          simp [afterStar, List.dropWhile_cons]
        constructor
        · rintro ⟨hm, hf⟩
          refine ⟨hhead, hstar, ?_⟩
          unfold checksumSpecOk
          rw [hAfter]
          exact hf
        · rintro ⟨_, _, hf⟩
          refine ⟨hmemTL, ?_⟩
          unfold checksumSpecOk at hf
          rw [hAfter] at hf
          exact hf
  · intro s
    unfold nmea_checksum_ok_tester
    split
    · rename_i hguard
      simp only [Bool.not_eq_true'] at hguard
      constructor
      · intro hfalse
        exact absurd hfalse (by simp)
      · rintro ⟨hstar, _, _⟩
        exact absurd hguard (Bool.ne_false_iff.mpr (List.elem_iff.mpr hstar))
    · rename_i hguard
      simp only [Bool.not_eq_true'] at hguard
      have hc : s.contains '*' = true := Bool.ne_false_iff.mp hguard
      have hstar : '*' ∈ s := List.elem_iff.mp hc
      rw [checksum_core]
      exact ⟨fun ⟨a, b⟩ => ⟨hstar, a, b⟩, fun ⟨_, a, b⟩ => ⟨a, b⟩⟩

/-- Counterexample for C2 as stated: the tester verifier accepts a line that
does not start with `$` (the XOR of "AB" is 0x03 and the suffix matches), so
the claimed equivalence fails for `serial_tester.py`. -/
theorem claim_C2_counterexample :
    nmea_checksum_ok_tester "!AB*03".toList = true ∧
    ("!AB*03".toList : PyStr).head? ≠ some '$' := by
  constructor
  · decide
  · decide

/-- Witness for C2: both equivalences instantiated at the standard GGA
sentence. -/
theorem claim_C2_witness :
    nmea_checksum_ok_display
      "$GPGGA,123519,4807.038,N,01131.000,E,1,08,0.9,545.4,M,46.9,M,,*47".toList =
      true ∧
    (("$GPGGA,123519,4807.038,N,01131.000,E,1,08,0.9,545.4,M,46.9,M,,*47".toList :
        PyStr).head? = some '$' ∧
      '*' ∈ ("$GPGGA,123519,4807.038,N,01131.000,E,1,08,0.9,545.4,M,46.9,M,,*47".toList :
        PyStr) ∧
      checksumSpecOk
        "$GPGGA,123519,4807.038,N,01131.000,E,1,08,0.9,545.4,M,46.9,M,,*47".toList) := by
  have h :=
    (claim_C2.1
      "$GPGGA,123519,4807.038,N,01131.000,E,1,08,0.9,545.4,M,46.9,M,,*47".toList).mp
      (by decide)
  exact ⟨by decide, h⟩

/-! ### Field extraction (claim C6) -/

lemma splitOnPred_ne_nil {α : Type} (p : α → Bool) (l : List α) :
    splitOnPred p l ≠ [] := by
  induction l with
  | nil => simp [splitOnPred]
  | cons a rest ih =>
    simp only [splitOnPred]
    split
    · simp
    · split
      · simp
      · simp

lemma findIdx_take_eq (p : Char → Bool) :
    ∀ l : PyStr,
      (match l.findIdx? p with
        | some i => l.take i
        | none => l) = l.takeWhile (fun c => !(p c)) := by
  intro l
  induction l with
  | nil => rfl
  | cons c rest ih =>
    rw [List.findIdx?_cons]
    by_cases hc : p c
    · simp [hc]
    · simp only [hc, Bool.false_eq_true, if_false]
      cases hr : rest.findIdx? p with
      | none =>
        rw [hr] at ih
        simp only [List.findIdx?_succ, hr, Option.map_none']
        simp [List.takeWhile_cons, hc]
        exact ih
      | some i =>
        rw [hr] at ih
        simp only [List.findIdx?_succ, hr, Option.map_some']
        simp [List.takeWhile_cons, hc]
        exact ih

lemma code_body_eq (s : PyStr) (h : (pyStrip s).head? = some '$') :
    (match (pyStrip s).findIdx? (· == '*') with
      | some star => ((pyStrip s).take star).drop 1
      | none => (pyStrip s).drop 1) = specBody s := by
  unfold specBody beforeStar
  cases hst : pyStrip s with
  | nil => rw [hst] at h; simp at h
  | cons c t =>
    rw [hst] at h
    simp only [List.head?_cons, Option.some.injEq] at h
    subst h
    rw [List.findIdx?_cons]
    rw [show (('$' : Char) == '*') = false by decide]
    simp only [Bool.false_eq_true, if_false]
    cases hr : t.findIdx? (· == '*') with
    | none =>
      have h2 := findIdx_take_eq (· == '*') t
      rw [hr] at h2
      simp only [List.findIdx?_succ, hr, Option.map_none']
      simp
      exact h2
    | some i =>
      have h2 := findIdx_take_eq (· == '*') t
      rw [hr] at h2
      simp only [List.findIdx?_succ, hr, Option.map_some']
      simp
      exact h2

/-- C6 (amended): field extraction, stated on the stripped line (the
implementation strips surrounding whitespace first, so a line with leading
whitespace before `$` is still parsed — the counterexample below): when the
stripped line does not start with `$`, or the first comma-delimited token of
the body (the text between `$` and the first `*`, or to the end when `*` is
absent) is shorter than five characters, extraction yields no talker, no
type and no fields; otherwise the talker is the token's first two
characters, the type the remaining characters, and the fields all subsequent
comma-delimited tokens in order, in original string form. -/
theorem claim_C6 :
    ∀ s : PyStr,
      ((pyStrip s).head? ≠ some '$' → split_fields s = (none, none, [])) ∧
      ((pyStrip s).head? = some '$' →
        ((pySplit (specBody s)).headD []).length < 5 →
        split_fields s = (none, none, [])) ∧
      ((pyStrip s).head? = some '$' →
        5 ≤ ((pySplit (specBody s)).headD []).length →
        split_fields s =
          (some (((pySplit (specBody s)).headD []).take 2),
            some (((pySplit (specBody s)).headD []).drop 2),
            (pySplit (specBody s)).tail)) := by
  intro s
  refine ⟨?_, ?_, ?_⟩
  · intro h
    simp only [split_fields]
    rw [if_pos h]
  · intro h hshort
    simp only [split_fields]
    rw [if_neg (by simp [h]), code_body_eq s h]
    cases hp : pySplit (specBody s) with
    | nil => exact absurd hp (splitOnPred_ne_nil _ _)
    | cons p0 restParts =>
      rw [hp] at hshort
      simp only [List.headD_cons] at hshort
      simp only []
      rw [if_pos hshort]
  · intro h hlong
    simp only [split_fields]
    rw [if_neg (by simp [h]), code_body_eq s h]
    cases hp : pySplit (specBody s) with
    | nil => exact absurd hp (splitOnPred_ne_nil _ _)
    | cons p0 restParts =>
      rw [hp] at hlong
      simp only [List.headD_cons] at hlong
      simp only []
      rw [if_neg (by omega)]
      simp

/-- Counterexample for C6 as stated: the line " $GPGGA,1" does not start
with `$` (it starts with a space), yet extraction succeeds because the
implementation strips whitespace first. -/
theorem claim_C6_counterexample :
    ((" $GPGGA,1".toList : PyStr).head? ≠ some '$') ∧
    split_fields " $GPGGA,1".toList =
      (some "GP".toList, some "GGA".toList, ["1".toList]) := by
  constructor
  · decide
  · decide

/-- Witness for C6: both the rejecting and the accepting clause at concrete
lines. -/
theorem claim_C6_witness :
    ((pyStrip "noDollar".toList).head? ≠ some '$' ∧
      split_fields "noDollar".toList = (none, none, [])) ∧
    ((pyStrip "$GPGGA,12,34*77".toList).head? = some '$' ∧
      5 ≤ ((pySplit (specBody "$GPGGA,12,34*77".toList)).headD []).length ∧
      split_fields "$GPGGA,12,34*77".toList =
        (some "GP".toList, some "GGA".toList, ["12".toList, "34".toList])) := by
  constructor
  · exact ⟨by decide, (claim_C6 "noDollar".toList).1 (by decide)⟩
  · refine ⟨by decide, by decide, ?_⟩
    have h := (claim_C6 "$GPGGA,12,34*77".toList).2.2 (by decide) (by decide)
    rw [h]
    decide

/-! ### The line framer (claim C4) -/

lemma getLastD_default {α : Type} (l : List α) (h : l ≠ []) (d e : α) :
    l.getLastD d = l.getLastD e := by
  cases l with
  | nil => exact absurd rfl h
  | cons a t => rw [List.getLastD_cons, List.getLastD_cons]

lemma segs_nil : segs [] = [[]] := rfl

lemma segs_term {b : Nat} (hb : isTermByte b = true) (rest : List Nat) :
    segs (b :: rest) = [] :: segs rest := by
  simp [segs, splitOnPred, hb]

lemma segs_nonterm {b : Nat} (hb : isTermByte b = false) (rest : List Nat) :
    segs (b :: rest) = (b :: (segs rest).headD []) :: (segs rest).tail := by
  simp only [segs, splitOnPred, hb, Bool.false_eq_true, if_false]
  cases hr : splitOnPred isTermByte rest with
  | nil => exact absurd hr (splitOnPred_ne_nil _ _)
  | cons q qs => simp

lemma segs_pre :
    ∀ (pre : List Nat), (∀ b ∈ pre, isTermByte b = false) →
      ∀ xs, segs (pre ++ xs) = (pre ++ (segs xs).headD []) :: (segs xs).tail := by
  intro pre
  induction pre with
  | nil =>
    intro _ xs
    cases hx : segs xs with
    | nil => exact absurd hx (splitOnPred_ne_nil _ _)
    | cons q qs => simp [hx]
  | cons b pre2 ih =>
    intro hnt xs
    have hb : isTermByte b = false := hnt b (List.mem_cons_self b pre2)
    rw [List.cons_append, segs_nonterm hb,
      ih (fun x hx => hnt x (List.mem_cons_of_mem b hx)) xs]
    simp

lemma segs_noTerm {buf : List Nat} (h : ∀ b ∈ buf, isTermByte b = false) :
    segs buf = [buf] := by
  have := segs_pre buf h []
  simpa [segs_nil] using this

lemma segs_mem_noTerm :
    ∀ (buf : List Nat), ∀ seg ∈ segs buf, ∀ b ∈ seg, isTermByte b = false := by
  intro buf
  induction buf with
  | nil =>
    intro seg hseg b hb
    simp [segs_nil] at hseg
    subst hseg
    simp at hb
  | cons a rest ih =>
    intro seg hseg b hb
    by_cases ha : isTermByte a
    · rw [segs_term ha] at hseg
      rcases List.mem_cons.mp hseg with rfl | h2
      · simp at hb
      · exact ih seg h2 b hb
    · rw [segs_nonterm (by simpa using ha)] at hseg
      rcases List.mem_cons.mp hseg with rfl | h2
      · rcases List.mem_cons.mp hb with rfl | h3
        · simpa using ha
        · refine ih ((segs rest).headD []) ?_ b h3
          cases hr : segs rest with
          | nil => exact absurd hr (splitOnPred_ne_nil _ _)
          | cons q qs => simp
      · exact ih seg (List.mem_of_mem_tail h2) b hb

lemma getLastD_mem {α : Type} : ∀ (l : List α) (d : α), l ≠ [] → l.getLastD d ∈ l := by
  intro l
  induction l with
  | nil => intro d h; exact absurd rfl h
  | cons a t ih =>
    intro d _
    rw [List.getLastD_cons]
    cases t with
    | nil => simp
    | cons b t2 => exact List.mem_cons_of_mem a (ih a (by simp))

lemma lastSeg_noTerm (buf : List Nat) : ∀ b ∈ lastSeg buf, isTermByte b = false :=
  segs_mem_noTerm buf (lastSeg buf)
    (getLastD_mem (segs buf) [] (splitOnPred_ne_nil _ _))

lemma segs_ne_nil (buf : List Nat) : segs buf ≠ [] := splitOnPred_ne_nil _ _

lemma lastSeg_cons_term {b : Nat} (hb : isTermByte b = true) (x : List Nat) :
    lastSeg (b :: x) = lastSeg x := by
  rw [lastSeg, lastSeg, segs_term hb, List.getLastD_cons,
    getLastD_default (segs x) (segs_ne_nil x) [] []]

lemma segs_append : ∀ (x y : List Nat),
    segs (x ++ y) = (segs x).dropLast ++ segs (lastSeg x ++ y) := by
  intro x
  induction x with
  | nil =>
    intro y
    simp [segs_nil, lastSeg]
  | cons b x2 ih =>
    intro y
    by_cases hb : isTermByte b
    · rw [List.cons_append, segs_term hb, segs_term hb, ih y,
        List.dropLast_cons_of_ne_nil (segs_ne_nil x2), lastSeg_cons_term hb]
      simp
    · have hb2 : isTermByte b = false := by simpa using hb
      rw [List.cons_append, segs_nonterm hb2, segs_nonterm hb2, ih y]
      cases hr : segs x2 with
      | nil => exact absurd hr (segs_ne_nil x2)
      | cons s0 ss =>
        cases ss with
        | nil =>
          have hlx2 : lastSeg x2 = s0 := by
            rw [lastSeg, hr, List.getLastD_cons, List.getLastD_nil]
          have hlbx2 : lastSeg (b :: x2) = b :: s0 := by
            rw [lastSeg, segs_nonterm hb2, hr]
            simp
          rw [hlx2, hlbx2]
          simp only [List.dropLast_single, List.nil_append, List.headD_cons,
            List.tail_cons]
          rw [List.cons_append, segs_nonterm hb2]
        | cons s1 ss2 =>
          have hlx2eq : lastSeg (b :: x2) = lastSeg x2 := by
            rw [lastSeg, lastSeg, segs_nonterm hb2, hr]
            simp only [List.headD_cons, List.tail_cons, List.getLastD_cons]
          rw [hlx2eq]
          simp

lemma firstTerm_none_noTerm :
    ∀ buf : List Nat, firstTerm buf = none → ∀ b ∈ buf, isTermByte b = false := by
  intro buf
  induction buf with
  | nil => intro _ b hb; simp at hb
  | cons a rest ih =>
    intro h b hb
    by_cases ha : isTermByte a
    · simp [firstTerm, ha] at h
    · simp only [firstTerm, ha, Bool.false_eq_true, if_false] at h
      rcases List.mem_cons.mp hb with rfl | h2
      · simpa using ha
      · exact ih (by
          cases hr : firstTerm rest with
          | none => rfl
          | some j => rw [hr] at h; simp at h) b h2

lemma firstTerm_spec :
    ∀ (buf : List Nat) (idx : Nat), firstTerm buf = some idx →
      idx < buf.length ∧ (∀ b ∈ buf.take idx, isTermByte b = false) ∧
        isTermByte (buf.getD idx 0) = true := by
  intro buf
  induction buf with
  | nil => intro idx h; simp [firstTerm] at h
  | cons a rest ih =>
    intro idx h
    by_cases ha : isTermByte a
    · simp only [firstTerm, ha, if_true] at h
      obtain rfl : (0 : Nat) = idx := Option.some.inj h
      refine ⟨by simp, by simp, by simpa using ha⟩
    · simp only [firstTerm, ha, Bool.false_eq_true, if_false] at h
      cases hr : firstTerm rest with
      | none => rw [hr] at h; simp at h
      | some j =>
        rw [hr] at h
        simp only [Option.map_some', Option.some.injEq] at h
        subst h
        obtain ⟨h1, h2, h3⟩ := ih j hr
        refine ⟨by simp; omega, ?_, by simpa using h3⟩
        intro b hb
        rw [List.take_succ_cons] at hb
        rcases List.mem_cons.mp hb with rfl | hb2
        · simpa using ha
        · exact h2 b hb2

lemma drop_eq_getD_cons {buf : List Nat} {i : Nat} (h : i < buf.length) :
    buf.drop i = buf.getD i 0 :: buf.drop (i + 1) := by
  rw [List.getD_eq_getElem buf 0 h, List.drop_eq_getElem_cons h]

lemma isTermPair_right {a b : Nat} (h : isTermPair a b = true) :
    isTermByte b = true := by
  simp only [isTermPair, Bool.or_eq_true, Bool.and_eq_true] at h
  rcases h with ⟨_, h2⟩ | ⟨_, h2⟩ <;> simp [isTermByte, h2]

lemma emittedOf_cons_term (decode : List Nat → PyStr) (pre : List Nat)
    (hpre : ∀ b ∈ pre, isTermByte b = false) {t : Nat} (ht : isTermByte t = true)
    (xs : List Nat) :
    emittedOf decode (pre ++ t :: xs) =
      (if (pyStrip (decode pre)).isEmpty then [] else [pyStrip (decode pre)]) ++
        emittedOf decode xs ∧
    lastSeg (pre ++ t :: xs) = lastSeg xs := by
  constructor
  · unfold emittedOf
    rw [segs_pre pre hpre (t :: xs), segs_term ht]
    simp only [List.headD_cons, List.tail_cons, List.append_nil]
    rw [List.dropLast_cons_of_ne_nil (segs_ne_nil xs)]
    simp only [List.map_cons, List.filter_cons]
    by_cases he : (pyStrip (decode pre)).isEmpty
    · simp [he]
    · simp [he]
  · rw [lastSeg, lastSeg, segs_pre pre hpre (t :: xs), segs_term ht]
    simp only [List.headD_cons, List.tail_cons, List.getLastD_cons]
    exact getLastD_default _ (segs_ne_nil xs) _ []

lemma processBuf_eq_aux (decode : List Nat → PyStr) (hdec : pyStrip (decode []) = []) :
    ∀ (n : Nat) (buf : List Nat), buf.length ≤ n →
      processBuf decode buf = (emittedOf decode buf, lastSeg buf) := by
  intro n
  induction n with
  | zero =>
    intro buf hlen
    have hb : buf = [] := List.length_eq_zero.mp (Nat.le_zero.mp hlen)
    subst hb
    rw [processBuf]
    simp [firstTerm, emittedOf, lastSeg, segs_nil]
  | succ n ih =>
    intro buf hlen
    rw [processBuf]
    split
    · rename_i hnone
      have hnt := firstTerm_none_noTerm buf hnone
      unfold emittedOf lastSeg
      rw [segs_noTerm hnt]
      simp
    · rename_i idx heq
      obtain ⟨hidx, hpre, hterm⟩ := firstTerm_spec buf idx heq
      have hd1 : buf.drop idx = buf.getD idx 0 :: buf.drop (idx + 1) :=
        drop_eq_getD_cons hidx
      by_cases hpair :
          idx + 1 < buf.length ∧
            isTermPair (buf.getD idx 0) (buf.getD (idx + 1) 0) = true
      · have hdrop2 : framerDrop buf idx = 2 := by
          unfold framerDrop
          rw [if_pos ⟨hpair.1, hpair.2⟩]
        have hd2 : buf.drop (idx + 1) =
            buf.getD (idx + 1) 0 :: buf.drop (idx + 2) := drop_eq_getD_cons hpair.1
        have hdecomp : buf =
            buf.take idx ++ buf.getD idx 0 ::
              buf.getD (idx + 1) 0 :: buf.drop (idx + 2) := by
          conv_lhs => rw [← List.take_append_drop idx buf]
          rw [hd1, hd2]
        have hE := emittedOf_cons_term decode (buf.take idx) hpre hterm
          (buf.getD (idx + 1) 0 :: buf.drop (idx + 2))
        have hE2 := emittedOf_cons_term decode [] (by simp)
          (isTermPair_right hpair.2) (buf.drop (idx + 2))
        simp only [List.nil_append, hdec, List.isEmpty_nil, if_pos] at hE2
        have hIH : processBuf decode (buf.drop (idx + framerDrop buf idx)) =
            (emittedOf decode (buf.drop (idx + 2)), lastSeg (buf.drop (idx + 2))) := by
          rw [hdrop2]
          apply ih
          simp only [List.length_drop]
          omega
        rw [hIH]
        have hEbuf : emittedOf decode buf =
            (if (pyStrip (decode (buf.take idx))).isEmpty then []
              else [pyStrip (decode (buf.take idx))]) ++
              emittedOf decode (buf.drop (idx + 2)) := by
          conv_lhs => rw [hdecomp]
          rw [hE.1, hE2.1]
        have hLbuf : lastSeg buf = lastSeg (buf.drop (idx + 2)) := by
          conv_lhs => rw [hdecomp]
          rw [hE.2, hE2.2]
        rw [hEbuf, hLbuf]
        by_cases he : (pyStrip (decode (buf.take idx))).isEmpty
        · simp [he]
        · simp [he]
      · have hdrop1 : framerDrop buf idx = 1 := by
          unfold framerDrop
          rw [if_neg hpair]
        have hdecomp : buf = buf.take idx ++ buf.getD idx 0 :: buf.drop (idx + 1) := by
          conv_lhs => rw [← List.take_append_drop idx buf]
          rw [hd1]
        have hE := emittedOf_cons_term decode (buf.take idx) hpre hterm
          (buf.drop (idx + 1))
        have hIH : processBuf decode (buf.drop (idx + framerDrop buf idx)) =
            (emittedOf decode (buf.drop (idx + 1)), lastSeg (buf.drop (idx + 1))) := by
          rw [hdrop1]
          apply ih
          simp only [List.length_drop]
          omega
        rw [hIH]
        have hEbuf : emittedOf decode buf =
            (if (pyStrip (decode (buf.take idx))).isEmpty then []
              else [pyStrip (decode (buf.take idx))]) ++
              emittedOf decode (buf.drop (idx + 1)) := by
          conv_lhs => rw [hdecomp]
          rw [hE.1]
        have hLbuf : lastSeg buf = lastSeg (buf.drop (idx + 1)) := by
          conv_lhs => rw [hdecomp]
          rw [hE.2]
        rw [hEbuf, hLbuf]
        by_cases he : (pyStrip (decode (buf.take idx))).isEmpty
        · simp [he]
        · simp [he]

lemma processBuf_eq (decode : List Nat → PyStr) (hdec : pyStrip (decode []) = [])
    (buf : List Nat) :
    processBuf decode buf = (emittedOf decode buf, lastSeg buf) :=
  processBuf_eq_aux decode hdec buf.length buf (le_refl _)

lemma emittedOf_noTerm (decode : List Nat → PyStr) {buf : List Nat}
    (h : ∀ b ∈ buf, isTermByte b = false) : emittedOf decode buf = [] := by
  unfold emittedOf
  rw [segs_noTerm h]
  simp

lemma emittedOf_append (decode : List Nat → PyStr) (x y : List Nat) :
    emittedOf decode (x ++ y) =
      emittedOf decode x ++ emittedOf decode (lastSeg x ++ y) := by
  unfold emittedOf
  rw [segs_append x y,
    List.dropLast_append_of_ne_nil ((segs x).dropLast) (segs_ne_nil _),
    List.map_append, List.filter_append]

lemma runFramer_eq (decode : List Nat → PyStr) (hdec : pyStrip (decode []) = []) :
    ∀ (cs : List (List Nat)) (acc : List Nat), (∀ b ∈ acc, isTermByte b = false) →
      runFramer decode acc cs = emittedOf decode (acc ++ cs.join) := by
  intro cs
  induction cs with
  | nil =>
    intro acc hacc
    simp only [runFramer, List.join_nil, List.append_nil]
    exact (emittedOf_noTerm decode hacc).symm
  | cons c cs ih =>
    intro acc hacc
    simp only [runFramer]
    rw [processBuf_eq decode hdec (acc ++ c)]
    dsimp only
    rw [ih (lastSeg (acc ++ c)) (lastSeg_noTerm _)]
    have hjoin : acc ++ (c :: cs).join = (acc ++ c) ++ cs.join := by
      simp only [List.join_cons]
      rw [List.append_assoc]
    rw [hjoin, emittedOf_append decode (acc ++ c) cs.join]

/-- **C4.** For every byte sequence and every way of splitting it into
chunks, the line framer emits each terminated line exactly once, with the
same emitted lines in the same order as when the whole sequence is fed as a
single chunk (for any byte decoding that turns the empty byte string into a
blank line); and the framer consumes two bytes for a terminator pair
(CR/LF or LF/CR) with a byte following in the buffer, otherwise one byte. -/
theorem claim_C4 :
    (∀ (decode : List Nat → PyStr), pyStrip (decode []) = [] →
      ∀ cs : List (List Nat),
        runFramer decode [] cs = runFramer decode [] [cs.join]) ∧
    (∀ (buf : List Nat) (idx : Nat),
      idx + 1 < buf.length →
        isTermPair (buf.getD idx 0) (buf.getD (idx + 1) 0) = true →
          framerDrop buf idx = 2) ∧
    (∀ (buf : List Nat) (idx : Nat),
      ¬(idx + 1 < buf.length ∧
          isTermPair (buf.getD idx 0) (buf.getD (idx + 1) 0) = true) →
        framerDrop buf idx = 1) := by
  refine ⟨?_, ?_, ?_⟩
  · intro decode hdec cs
    rw [runFramer_eq decode hdec cs [] (by simp),
      runFramer_eq decode hdec [cs.join] [] (by simp)]
    simp
  · intro buf idx h1 h2
    unfold framerDrop
    rw [if_pos ⟨h1, h2⟩]
  · intro buf idx h
    unfold framerDrop
    rw [if_neg h]

/-- Witness for C4: a concrete stream `"GA\r" / "\nB\r\n"` split so that the
CR/LF pair straddles the chunk boundary gives the same emitted lines as the
unsplit stream, and the two byte-drop rules at concrete buffers. -/
theorem claim_C4_witness :
    pyStrip (byteDecode []) = [] ∧
    runFramer byteDecode [] [[71, 65, 13], [10, 66, 13, 10]] =
      runFramer byteDecode [] [[71, 65, 13, 10, 66, 13, 10]] ∧
    framerDrop [65, 13, 10] 1 = 2 ∧ framerDrop [65, 13] 1 = 1 :=
  ⟨rfl,
    claim_C4.1 byteDecode rfl [[71, 65, 13], [10, 66, 13, 10]],
    claim_C4.2.1 [65, 13, 10] 1 (by decide) (by decide),
    claim_C4.2.2 [65, 13] 1 (by decide)⟩
